import Mathlib

/-!
# Trace device-fleet platform — verification of the command-dispatch core

A shallow embedding of the Trace repository's data model and operations,
with theorems settling the frozen claims about it.

Two layers are embedded:

* **Frontend utilities present in the source** (`src/frontend/src/lib/auth.ts`,
  `src/frontend/src/lib/utils.ts` (unnamed part), the Settings page guard):
  `truncate`, `useIsAdmin` and the Settings-page render decision are
  translated directly from the TypeScript.

* **The command-dispatch / geofence core**: the repository ships only the
  web client, agent install scripts and API documentation; the backend that
  implements the command queue, check-in handler, result handler, alert
  lifecycle and geofence evaluator is not in the source tree. Those
  operations are therefore modelled from the specification (each such
  definition's doc comment says so and names the missing piece), and the
  claims are settled against that model.

All state is explicit: the queue model is a pure step function on a
`QState` record, machine time is an abstract `Nat` tick, and fallible
operations return `Except Err _`.
-/

namespace Trace

/-! ## Frontend utilities (translated from the TypeScript source) -/

/-- From `src/unnamed/part_003` (`src/frontend/src/lib/utils.ts`):
`truncate(str, length)` returns `str` unchanged when its length is at most
`length`, otherwise the first `length` characters followed by `"..."`.
JavaScript's `str.slice(0, n)` for `0 ≤ n` is `String.take n`; the JS
string is immutable and the model is a pure function, so the original
string is never mutated. -/
def truncate (str : String) (length : Nat) : String :=
  if str.length ≤ length then str
  else str.take length ++ "..."

/-- Role strings as stored on the authenticated user
(`src/frontend/src/lib/auth.ts`). -/
structure AuthUser where
  email : String
  role : String
deriving DecidableEq, Repr

/-- From `src/frontend/src/lib/auth.ts` (`useIsAdmin`): reads the current
user from the auth store and returns
`user?.role === 'super_admin' || user?.role === 'it_admin'`; when no user
is present the optional chaining yields `undefined` and both comparisons
are false. -/
def useIsAdmin (user : Option AuthUser) : Bool :=
  match user with
  | some u => u.role == "super_admin" || u.role == "it_admin"
  | none => false

/-- The two top-level renderings of the Settings page. -/
inductive SettingsView where
  | permissionDenied
  | policyForm
deriving DecidableEq, Repr

/-- From `src/frontend/src/app/(dashboard)/settings/page.tsx`
(`SettingsPage`): `if (!isAdmin)` the page returns the permission-denied
view; otherwise it renders the policy settings form. -/
def settingsPageView (isAdmin : Bool) : SettingsView :=
  if isAdmin then SettingsView.policyForm else SettingsView.permissionDenied

/-! ## Command-dispatch core (modelled from the spec)

The repository does not ship the backend that implements these
operations — `src/` holds only the web client, the agent install scripts
and the API documentation — so each definition below is modelled from the
specification's contracts (§3–§4.6 of the spec) and says so in its doc
comment. -/

/-- Command types (spec §3 `Command.type`; mirrored by the frontend's
command buttons in `src/unnamed/part_002`). -/
inductive CmdType where
  | lock | unlock | wipe | restart | shutdown | message | screenshot
deriving DecidableEq, Repr

/-- Command status chain `pending → sent → executed|failed` (spec §3). -/
inductive CmdStatus where
  | pending | sent | executed | failed
deriving DecidableEq, Repr

/-- The agent-reported outcome of a command (spec §4.4). -/
inductive Outcome where
  | executed | failed
deriving DecidableEq, Repr

/-- Error taxonomy, restricted to the kinds the claims mention
(spec §7). -/
inductive Err where
  | notFound | invalidStateTransition
deriving DecidableEq, Repr

/-- Modelled from the spec: §3 **Command** — device reference, type,
payload, status, creation/sent/executed timestamps, result payload, and a
failure reason (used for supersession). The backend entity is not in
`src/`. -/
structure Command where
  id : Nat
  deviceId : Nat
  ctype : CmdType
  payload : String
  status : CmdStatus
  createdAt : Nat
  sentAt : Option Nat
  executedAt : Option Nat
  resultPayload : Option String
  failReason : Option String
deriving DecidableEq, Repr

/-- Modelled from the spec: §3/§4.6 **Device** — connectivity
(`online`/`lastSeen`) and management flags (`isLocked`, `isWiped`) kept as
orthogonal fields as §4.6 prescribes. The backend entity is not in
`src/`. -/
structure Device where
  id : Nat
  isLocked : Bool
  isWiped : Bool
  online : Bool
  lastSeen : Option Nat
deriving DecidableEq, Repr

/-- Modelled from the spec: §3 **LocationSample** — immutable, append-only
check-in record. Coordinates are abstracted to integers (the claims never
compute with them). The backend entity is not in `src/`. -/
structure LocationSample where
  deviceId : Nat
  latitude : Int
  longitude : Int
  recordedAt : Nat
deriving DecidableEq, Repr

/-- Modelled from the spec: §3 **Alert** — acknowledgment lifecycle
`unacknowledged → acknowledged → resolved`, tracked as the two flags the
REST API exposes (`is_acknowledged`, `is_resolved` in `docs/API.md`). The
backend entity is not in `src/`. -/
structure Alert where
  id : Nat
  deviceId : Nat
  kind : String
  acked : Bool
  resolved : Bool
  ackedAt : Option Nat
  resolvedAt : Option Nat
deriving DecidableEq, Repr

/-- The server state the command-dispatch core owns: command queue,
device registry, location history, alerts, and the fresh-id counter. -/
structure QState where
  commands : List Command
  devices : List Device
  samples : List LocationSample
  alerts : List Alert
  nextCmdId : Nat
deriving DecidableEq, Repr

/-- Modelled from the spec: §3's invariant names `wipe` and `lock` as the
conflicting command types (at most one in-flight wipe-or-lock per
device). -/
def conflictingType (t : CmdType) : Bool :=
  t == CmdType.lock || t == CmdType.wipe

/-- In-flight means `pending` or `sent` (spec glossary). -/
def inFlight (c : Command) : Bool :=
  c.status == CmdStatus.pending || c.status == CmdStatus.sent

/-- Modelled from the spec: §4.2 `enqueue`'s supersession step — every
in-flight command of a conflicting type for the device is marked `failed`
with reason `"superseded"` before the new command is created. -/
def supersedeConflicting (d : Nat) (cs : List Command) : List Command :=
  cs.map fun c =>
    if c.deviceId == d && conflictingType c.ctype && inFlight c then
      { c with status := CmdStatus.failed, failReason := some "superseded" }
    else c

/-- A freshly created `pending` command (spec §4.2). -/
def mkCommand (cid d : Nat) (t : CmdType) (payload : String) (now : Nat) :
    Command :=
  { id := cid, deviceId := d, ctype := t, payload := payload,
    status := CmdStatus.pending, createdAt := now, sentAt := none,
    executedAt := none, resultPayload := none, failReason := none }

/-- Modelled from the spec: §4.2 `enqueue(device_id, type, payload)` —
supersede conflicting in-flight commands when the new type is conflicting,
then append one new `pending` command with a fresh id. -/
def enqueue (st : QState) (d : Nat) (t : CmdType) (payload : String)
    (now : Nat) : QState × Command :=
  let cs := if conflictingType t then supersedeConflicting d st.commands
            else st.commands
  let c := mkCommand st.nextCmdId d t payload now
  ({ st with commands := cs ++ [c], nextCmdId := st.nextCmdId + 1 }, c)

/-- The oldest (minimal `createdAt`, ties broken toward the earlier queue
entry) `pending` command for device `d` whose type satisfies `allow`. -/
def oldestPendingSuch (d : Nat) (allow : CmdType → Bool) :
    List Command → Option Command
  | [] => none
  | c :: cs =>
    let rest := oldestPendingSuch d allow cs
    if c.deviceId == d && c.status == CmdStatus.pending && allow c.ctype then
      match rest with
      | none => some c
      | some b => if b.createdAt < c.createdAt then some b else some c
    else rest

/-- Transition the command with id `cid` to `sent`, stamping `sentAt`. -/
def markSent (cid now : Nat) (cs : List Command) : List Command :=
  cs.map fun c =>
    if c.id == cid then { c with status := CmdStatus.sent, sentAt := some now }
    else c

/-- Modelled from the spec: §4.2/§4.3 dequeue restricted to the command
types the check-in may deliver (a locked device only receives
unlock-class commands). Selects the oldest eligible `pending` command,
transitions it to `sent`, stamps `sentAt`, and returns it. -/
def dequeueSuch (st : QState) (d : Nat) (allow : CmdType → Bool)
    (now : Nat) : QState × Option Command :=
  match oldestPendingSuch d allow st.commands with
  | none => (st, none)
  | some c =>
    ({ st with commands := markSent c.id now st.commands },
     some { c with status := CmdStatus.sent, sentAt := some now })

/-- Modelled from the spec: §4.2 `dequeue_next(device_id)` — the oldest
`pending` command of the device, any type. -/
def dequeue_next (st : QState) (d : Nat) (now : Nat) :
    QState × Option Command :=
  dequeueSuch st d (fun _ => true) now

/-- The terminal status an outcome resolves a command to (spec §4.2). -/
def outcomeStatus (o : Outcome) : CmdStatus :=
  match o with
  | Outcome.executed => CmdStatus.executed
  | Outcome.failed => CmdStatus.failed

/-- Modelled from the spec: §4.4 — on `lock`/`unlock`/`wipe` success the
device's management flags are updated (wipe is terminal); failure outcomes
leave device state unchanged. -/
def applyOutcomeToDevice (t : CmdType) (o : Outcome) (dev : Device) :
    Device :=
  match o with
  | Outcome.failed => dev
  | Outcome.executed =>
    match t with
    | CmdType.lock => { dev with isLocked := true }
    | CmdType.unlock => { dev with isLocked := false }
    | CmdType.wipe => { dev with isWiped := true }
    | _ => dev

/-- A `sent` command resolved by an agent report (spec §4.2). -/
def resolveCommand (c : Command) (o : Outcome) (payload : String)
    (now : Nat) : Command :=
  { c with
    status := outcomeStatus o
    resultPayload := some payload
    executedAt := some now }

/-- Modelled from the spec: §4.2/§4.4/§5 `record_result(command_id,
outcome, payload)` — transitions a `sent` command to `executed` or
`failed` (updating the device's lock/wipe flags on success); resubmitting
the identical outcome and payload for an already-terminal command is an
idempotent no-op (§5, duplicate delivery tolerance); any other call on a
command not in `sent` state fails with `InvalidStateTransition`. -/
def record_result (st : QState) (cid : Nat) (o : Outcome) (payload : String)
    (now : Nat) : Except Err (QState × Command) :=
  match st.commands.find? (fun c => c.id == cid) with
  | none => Except.error Err.notFound
  | some c =>
    match c.status with
    | CmdStatus.sent =>
      let c2 := resolveCommand c o payload now
      Except.ok
        ({ st with
           commands := st.commands.map fun x => if x.id == cid then c2 else x
           devices := st.devices.map fun v =>
             if v.id == c.deviceId then applyOutcomeToDevice c.ctype o v
             else v },
         c2)
    | CmdStatus.pending => Except.error Err.invalidStateTransition
    | CmdStatus.executed =>
      if o == Outcome.executed && c.resultPayload == some payload then
        Except.ok (st, c)
      else Except.error Err.invalidStateTransition
    | CmdStatus.failed =>
      if o == Outcome.failed && c.resultPayload == some payload then
        Except.ok (st, c)
      else Except.error Err.invalidStateTransition

/-- Modelled from the spec: §4.3 `checkin(device_id, location_sample)` —
reject unknown devices (`NotFound`) and wiped devices
(`InvalidStateTransition`, before any state is touched); otherwise append
the LocationSample, mark the device online refreshing `lastSeen`, and
dequeue at most one command (only unlock-class when the device is
locked). -/
def checkin (st : QState) (d : Nat) (lat lon : Int) (now : Nat) :
    Except Err (QState × Option Command) :=
  match st.devices.find? (fun v => v.id == d) with
  | none => Except.error Err.notFound
  | some dev =>
    if dev.isWiped then Except.error Err.invalidStateTransition
    else
      let st2 : QState :=
        { st with
          devices := st.devices.map fun v =>
            if v.id == d then { v with online := true, lastSeen := some now }
            else v
          samples := st.samples ++ [⟨d, lat, lon, now⟩] }
      let allow : CmdType → Bool :=
        if dev.isLocked then (fun t => t == CmdType.unlock)
        else (fun _ => true)
      Except.ok (dequeueSuch st2 d allow now)

/-- The rank of an alert along its forward-only lifecycle:
`unacknowledged` 0, `acknowledged` 1, `resolved` 2. -/
def alertRank (a : Alert) : Nat :=
  if a.resolved then 2 else if a.acked then 1 else 0

/-- Modelled from the spec: §4.5 `acknowledge(alert_id)` — the forward
transition `unacknowledged → acknowledged`; acknowledging a resolved (or
already acknowledged — only forward transitions are allowed) alert fails
with `InvalidStateTransition`. -/
def acknowledgeAlert (st : QState) (aid : Nat) (now : Nat) :
    Except Err QState :=
  match st.alerts.find? (fun a => a.id == aid) with
  | none => Except.error Err.notFound
  | some a =>
    if a.resolved || a.acked then Except.error Err.invalidStateTransition
    else
      Except.ok
        { st with alerts := st.alerts.map fun x =>
            if x.id == aid then { x with acked := true, ackedAt := some now }
            else x }

/-- Modelled from the spec: §4.5 `resolve(alert_id)` — the forward
transition to the terminal `resolved` state (allowed from either earlier
state, as the dashboard offers Resolve on any unresolved alert);
resolving a resolved alert fails with `InvalidStateTransition`. -/
def resolveAlert (st : QState) (aid : Nat) (now : Nat) :
    Except Err QState :=
  match st.alerts.find? (fun a => a.id == aid) with
  | none => Except.error Err.notFound
  | some a =>
    if a.resolved then Except.error Err.invalidStateTransition
    else
      Except.ok
        { st with alerts := st.alerts.map fun x =>
            if x.id == aid then { x with resolved := true, resolvedAt := some now }
            else x }

/-- The operations that can reach the command-dispatch core, as a trace
alphabet (admin enqueues, agent check-ins, agent result reports, alert
lifecycle actions). -/
inductive Op where
  | enqueue (d : Nat) (t : CmdType) (payload : String) (now : Nat)
  | checkin (d : Nat) (lat lon : Int) (now : Nat)
  | recordResult (cid : Nat) (o : Outcome) (payload : String) (now : Nat)
  | ackAlert (aid : Nat) (now : Nat)
  | resAlert (aid : Nat) (now : Nat)
deriving DecidableEq, Repr

/-- One step of the core: the next state, plus the command dequeued by
this step when it was a check-in that delivered one. Rejected operations
leave the state unchanged (spec §7: state-transition violations are
rejected synchronously, all-or-nothing). -/
def step (st : QState) : Op → QState × Option Command
  | Op.enqueue d t p now => ((enqueue st d t p now).1, none)
  | Op.checkin d lat lon now =>
    match checkin st d lat lon now with
    | Except.error _ => (st, none)
    | Except.ok r => r
  | Op.recordResult cid o p now =>
    match record_result st cid o p now with
    | Except.error _ => (st, none)
    | Except.ok r => (r.1, none)
  | Op.ackAlert aid now =>
    match acknowledgeAlert st aid now with
    | Except.error _ => (st, none)
    | Except.ok st2 => (st2, none)
  | Op.resAlert aid now =>
    match resolveAlert st aid now with
    | Except.error _ => (st, none)
    | Except.ok st2 => (st2, none)

/-- The ids of the commands delivered to agents along a trace of
operations. -/
def dequeuedIds (st : QState) : List Op → List Nat
  | [] => []
  | op :: ops =>
    let r := step st op
    (match r.2 with
     | some c => [c.id]
     | none => []) ++ dequeuedIds r.1 ops

/-- Well-formedness of the queue state: command ids are distinct and all
lie below the fresh-id counter. -/
def WF (st : QState) : Prop :=
  (st.commands.map Command.id).Nodup ∧
  ∀ c ∈ st.commands, c.id < st.nextCmdId

instance (st : QState) : Decidable (WF st) := by
  unfold WF
  infer_instance

/-- No command carrying id `i` in the state is still pending. A command
the queue has delivered satisfies this forever after. -/
def NotPending (st : QState) (i : Nat) : Prop :=
  ∀ c ∈ st.commands, c.id = i → c.status ≠ CmdStatus.pending

instance (st : QState) (i : Nat) : Decidable (NotPending st i) := by
  unfold NotPending
  infer_instance


/-- The pending wipe commands of a device. -/
def pendingWipes (d : Nat) (st : QState) : List Command :=
  st.commands.filter fun x =>
    x.deviceId == d && x.ctype == CmdType.wipe &&
      x.status == CmdStatus.pending

/-- The in-flight (pending or sent) wipe-or-lock commands of a device —
the list §3's invariant bounds by one. -/
def inFlightConflicting (d : Nat) (st : QState) : List Command :=
  st.commands.filter fun x =>
    x.deviceId == d && conflictingType x.ctype && inFlight x

/-- The position of a status along the chain
`pending → sent → executed|failed` (spec §3): both `executed` and
`failed` are terminal. -/
def statusRank : CmdStatus → Nat
  | CmdStatus.pending => 0
  | CmdStatus.sent => 1
  | CmdStatus.executed => 2
  | CmdStatus.failed => 2

/-- Run a whole trace of operations. -/
def runOps (st : QState) : List Op → QState
  | [] => st
  | op :: ops => runOps (step st op).1 ops

/-- A pending lock command for device 1, used by concrete witnesses. -/
def sampleLock : Command := mkCommand 0 1 CmdType.lock "" 5

/-- A pending message command for device 1 (older than `sampleLock`). -/
def sampleMessage : Command := mkCommand 1 1 CmdType.message "hi" 3

/-- A wipe command for device 1 already delivered to the agent. -/
def sampleSentWipe : Command :=
  { mkCommand 2 1 CmdType.wipe "" 4 with status := CmdStatus.sent, sentAt := some 6 }

/-- A lock command for device 1 already resolved as executed. -/
def sampleExecutedLock : Command :=
  { mkCommand 3 1 CmdType.lock "" 2 with status := CmdStatus.executed, resultPayload := some "ok", executedAt := some 7 }

/-- An ordinary registered device. -/
def sampleDevice : Device := ⟨1, false, false, false, none⟩

/-- A device that has been wiped. -/
def sampleWipedDevice : Device := ⟨2, false, true, false, none⟩

/-- An alert already resolved. -/
def sampleResolvedAlert : Alert := ⟨0, 1, "geofence_exit", true, true, some 1, some 2⟩

/-- A fresh, unacknowledged alert. -/
def sampleFreshAlert : Alert := ⟨1, 1, "offline", false, false, none, none⟩

/-- The concrete server state the witnesses evaluate the operations
on. -/
def sampleState : QState :=
  ⟨[sampleLock, sampleMessage, sampleSentWipe, sampleExecutedLock],
    [sampleDevice, sampleWipedDevice],
    [], [sampleResolvedAlert, sampleFreshAlert], 4⟩

/-! ## Geofence evaluator (modelled from the spec) -/

/-- A coordinate reported by an agent (spec §4.1). -/
structure GeoPoint where
  latitude : ℝ
  longitude : ℝ

/-- A circular geofence: center plus radius in meters (spec §3
**Geofence**, `docs/API.md` circle geometry fields). -/
structure CircleFence where
  centerLatitude : ℝ
  centerLongitude : ℝ
  radiusMeters : ℝ

/-- Modelled from the spec: §4.1 — great-circle distance in meters by the
haversine formula on an Earth radius of 6 371 000 m. The backend
evaluator is not in `src/` (the frontend only posts to
`/geofences/{id}/check`), so the formula is taken from the spec's words.
Real-valued trigonometry is noncomputable in Lean; the function is still
fully determined by its inputs. -/
noncomputable def haversineDistanceM (lat1 lon1 lat2 lon2 : ℝ) : ℝ :=
  let earthRadius : ℝ := 6371000
  let phi1 := lat1 * (Real.pi / 180)
  let phi2 := lat2 * (Real.pi / 180)
  let dphi := (lat2 - lat1) * (Real.pi / 180)
  let dlam := (lon2 - lon1) * (Real.pi / 180)
  let h := Real.sin (dphi / 2) ^ 2 +
    Real.cos phi1 * Real.cos phi2 * Real.sin (dlam / 2) ^ 2
  2 * earthRadius * Real.arcsin (Real.sqrt h)

/-- Modelled from the spec: §4.1 `evaluate(point, fence)` for a circle —
inside iff the haversine distance from the point to the center is at most
the radius (the spec's §8 fixes the inclusive boundary convention). -/
def evaluateCircleInside (p : GeoPoint) (f : CircleFence) : Prop :=
  haversineDistanceM p.latitude p.longitude
    f.centerLatitude f.centerLongitude ≤ f.radiusMeters

/-! ## Helper lemmas about the queue primitives -/

/-- When `oldestPendingSuch` finds nothing, no command of the list is an
eligible pending command of the device. -/
theorem oldestPendingSuch_eq_none_forall {d : Nat} {allow : CmdType → Bool} :
    ∀ {cs : List Command},
      oldestPendingSuch d allow cs = none →
      ∀ y ∈ cs, ¬(y.deviceId = d ∧ y.status = CmdStatus.pending ∧
        allow y.ctype = true) := by
  intro cs
  induction cs with
  | nil => intro _ y hy; simp at hy
  | cons x xs ih =>
    intro h y hy
    simp only [oldestPendingSuch] at h
    split at h
    · split at h
      · exact Option.noConfusion h
      · split at h <;> exact Option.noConfusion h
    · rename_i hcond
      rcases List.mem_cons.mp hy with rfl | hy
      · rintro ⟨h1, h2, h3⟩
        exact hcond (by simp [Bool.and_eq_true, beq_iff_eq, h1, h2, h3])
      · exact ih h y hy

/-- A command selected by `oldestPendingSuch` is in the list, is a pending
command of the device with an allowed type, and has minimal `createdAt`
among all such commands. -/
theorem oldestPendingSuch_spec {d : Nat} {allow : CmdType → Bool} :
    ∀ {cs : List Command} {c : Command},
      oldestPendingSuch d allow cs = some c →
      c ∈ cs ∧ c.deviceId = d ∧ c.status = CmdStatus.pending ∧
        allow c.ctype = true ∧
        ∀ y ∈ cs, y.deviceId = d → y.status = CmdStatus.pending →
          allow y.ctype = true → c.createdAt ≤ y.createdAt := by
  intro cs
  induction cs with
  | nil => intro c h; simp [oldestPendingSuch] at h
  | cons x xs ih =>
    intro c h
    simp only [oldestPendingSuch] at h
    split at h
    · rename_i hcond
      have hx : x.deviceId = d ∧ x.status = CmdStatus.pending ∧
          allow x.ctype = true := by
        simpa [Bool.and_eq_true, beq_iff_eq, and_assoc] using hcond
      split at h
      · rename_i hnone
        cases h
        refine ⟨List.mem_cons_self _ _, hx.1, hx.2.1, hx.2.2, ?_⟩
        intro y hy hyd hyp hya
        rcases List.mem_cons.mp hy with rfl | hy
        · exact Nat.le_refl _
        · exact absurd (⟨hyd, hyp, hya⟩ :
              y.deviceId = d ∧ y.status = CmdStatus.pending ∧
                allow y.ctype = true)
            (oldestPendingSuch_eq_none_forall hnone y hy)
      · rename_i b hsome
        obtain ⟨hbm, hbd, hbp, hba, hbmin⟩ := ih hsome
        split at h
        · rename_i hlt
          cases h
          refine ⟨List.mem_cons_of_mem _ hbm, hbd, hbp, hba, ?_⟩
          intro y hy hyd hyp hya
          rcases List.mem_cons.mp hy with rfl | hy
          · exact Nat.le_of_lt hlt
          · exact hbmin y hy hyd hyp hya
        · rename_i hnlt
          cases h
          refine ⟨List.mem_cons_self _ _, hx.1, hx.2.1, hx.2.2, ?_⟩
          intro y hy hyd hyp hya
          rcases List.mem_cons.mp hy with rfl | hy
          · exact Nat.le_refl _
          · exact Nat.le_trans (Nat.le_of_not_lt hnlt) (hbmin y hy hyd hyp hya)
    · rename_i hcond
      obtain ⟨hm, hdv, hp, ha, hmin⟩ := ih h
      refine ⟨List.mem_cons_of_mem _ hm, hdv, hp, ha, ?_⟩
      intro y hy hyd hyp hya
      rcases List.mem_cons.mp hy with rfl | hy
      · exact absurd (by simp [Bool.and_eq_true, beq_iff_eq, hyd, hyp, hya])
          hcond
      · exact hmin y hy hyd hyp hya

/-- Mapping a function that preserves `id` over the queue preserves the
id list. -/
theorem map_id_of_preserves (f : Command → Command)
    (hf : ∀ c, (f c).id = c.id) (cs : List Command) :
    (cs.map f).map Command.id = cs.map Command.id := by
  induction cs with
  | nil => rfl
  | cons x xs ih => simp [hf, ih]

/-- `markSent` preserves command ids. -/
theorem markSent_map_id (cid now : Nat) (cs : List Command) :
    (markSent cid now cs).map Command.id = cs.map Command.id := by
  unfold markSent
  exact map_id_of_preserves _
    (fun c => by by_cases h : (c.id == cid) = true <;> simp [h]) cs

/-- `supersedeConflicting` preserves command ids. -/
theorem supersedeConflicting_map_id (d : Nat) (cs : List Command) :
    (supersedeConflicting d cs).map Command.id = cs.map Command.id := by
  unfold supersedeConflicting
  exact map_id_of_preserves _
    (fun c => by
      by_cases h :
        (c.deviceId == d && conflictingType c.ctype && inFlight c) = true <;>
      simp [h]) cs

/-- An outcome always resolves to a terminal, non-pending status. -/
theorem outcomeStatus_ne_pending (o : Outcome) :
    outcomeStatus o ≠ CmdStatus.pending := by
  cases o <;> simp [outcomeStatus]

/-- After `markSent cid`, every command carrying id `cid` is `sent`. -/
theorem markSent_notPending_self (cid now : Nat) (cs : List Command) :
    ∀ c' ∈ markSent cid now cs, c'.id = cid →
      c'.status ≠ CmdStatus.pending := by
  intro c' hc' hid
  rcases List.mem_map.mp hc' with ⟨c, _, rfl⟩
  by_cases h : (c.id == cid) = true
  · simp [h]
  · simp [h] at hid
    exact absurd hid (by simpa using h)

/-- `markSent` never turns a non-pending command pending. -/
theorem markSent_preserves_notPending {cid now i : Nat} {cs : List Command}
    (h : ∀ c ∈ cs, c.id = i → c.status ≠ CmdStatus.pending) :
    ∀ c' ∈ markSent cid now cs, c'.id = i →
      c'.status ≠ CmdStatus.pending := by
  intro c' hc' hid
  rcases List.mem_map.mp hc' with ⟨c, hm, rfl⟩
  by_cases hcase : (c.id == cid) = true
  · simp [hcase]
  · simp [hcase] at hid ⊢
    exact h c hm hid

/-- The first component of `dequeueSuch` keeps `nextCmdId`. -/
theorem dequeueSuch_nextCmdId (st : QState) (d : Nat) (allow : CmdType → Bool)
    (now : Nat) : (dequeueSuch st d allow now).1.nextCmdId = st.nextCmdId := by
  unfold dequeueSuch
  split <;> rfl

/-- The first component of `dequeueSuch` keeps devices, samples, alerts. -/
theorem dequeueSuch_frame (st : QState) (d : Nat) (allow : CmdType → Bool)
    (now : Nat) :
    (dequeueSuch st d allow now).1.devices = st.devices ∧
    (dequeueSuch st d allow now).1.samples = st.samples ∧
    (dequeueSuch st d allow now).1.alerts = st.alerts := by
  unfold dequeueSuch
  split <;> exact ⟨rfl, rfl, rfl⟩

/-- The id list of the queue is unchanged by `dequeueSuch`. -/
theorem dequeueSuch_map_id (st : QState) (d : Nat) (allow : CmdType → Bool)
    (now : Nat) :
    (dequeueSuch st d allow now).1.commands.map Command.id =
      st.commands.map Command.id := by
  unfold dequeueSuch
  split
  · rfl
  · exact markSent_map_id _ _ _

/-- Every element of a superseded queue comes from an element with the
same id, either unchanged or marked `failed`. -/
theorem mem_supersede {d : Nat} {cs : List Command} {c' : Command}
    (h : c' ∈ supersedeConflicting d cs) :
    ∃ c ∈ cs, c'.id = c.id ∧ (c' = c ∨ c'.status = CmdStatus.failed) := by
  rcases List.mem_map.mp h with ⟨c, hm, rfl⟩
  by_cases hc :
      (c.deviceId == d && conflictingType c.ctype && inFlight c) = true
  · exact ⟨c, hm, by simp [hc], Or.inr (by simp [hc])⟩
  · exact ⟨c, hm, by simp [hc], Or.inl (by simp [hc])⟩

/-- Every element of a queue after `markSent` comes from an element with
the same id, either unchanged or now `sent`. -/
theorem mem_markSent {cid now : Nat} {cs : List Command} {c' : Command}
    (h : c' ∈ markSent cid now cs) :
    ∃ c ∈ cs, c'.id = c.id ∧
      (c' = c ∨ (c.id = cid ∧
        c' = { c with status := CmdStatus.sent, sentAt := some now })) := by
  rcases List.mem_map.mp h with ⟨c, hm, rfl⟩
  by_cases hc : (c.id == cid) = true
  · exact ⟨c, hm, by simp [hc], Or.inr ⟨by simpa using hc, by simp [hc]⟩⟩
  · exact ⟨c, hm, by simp [hc], Or.inl (by simp [hc])⟩

/-- A successful check-in is a dequeue from the state with the sample
appended and the device refreshed; the queue itself is untouched before
the dequeue. -/
theorem checkin_ok_shape {st : QState} {d : Nat} {lat lon : Int} {now : Nat}
    {r : QState × Option Command}
    (h : checkin st d lat lon now = Except.ok r) :
    ∃ st2 allow, st2.commands = st.commands ∧
      st2.nextCmdId = st.nextCmdId ∧ st2.alerts = st.alerts ∧
      r = dequeueSuch st2 d allow now := by
  unfold checkin at h
  split at h
  · exact Except.noConfusion h
  · split at h
    · exact Except.noConfusion h
    · refine ⟨_, _, ?_, ?_, ?_, (Except.ok.inj h).symm⟩ <;> rfl

/-- A successful `record_result` either left the state untouched (the
idempotent duplicate branch) or resolved a `sent` command, updating only
that command and the device's management flags. -/
theorem record_result_ok_shape {st : QState} {cid : Nat} {o : Outcome}
    {p : String} {now : Nat} {r : QState × Command}
    (h : record_result st cid o p now = Except.ok r) :
    r.1 = st ∨
    ∃ c, st.commands.find? (fun x => x.id == cid) = some c ∧
      c.status = CmdStatus.sent ∧
      r.1.commands = st.commands.map
        (fun x => if x.id == cid then resolveCommand c o p now else x) ∧
      r.1.devices = st.devices.map (fun v =>
        if v.id == c.deviceId then applyOutcomeToDevice c.ctype o v
        else v) ∧
      r.1.samples = st.samples ∧ r.1.alerts = st.alerts ∧
      r.1.nextCmdId = st.nextCmdId ∧ r.2 = resolveCommand c o p now := by
  unfold record_result at h
  split at h
  · exact Except.noConfusion h
  · rename_i c hfind
    split at h
    · refine Or.inr ⟨c, hfind, ?_, ?_⟩
      · rename_i hs
        exact hs
      · cases Except.ok.inj h
        exact ⟨rfl, rfl, rfl, rfl, rfl, rfl⟩
    · exact Except.noConfusion h
    · split at h
      · cases Except.ok.inj h
        exact Or.inl rfl
      · exact Except.noConfusion h
    · split at h
      · cases Except.ok.inj h
        exact Or.inl rfl
      · exact Except.noConfusion h

/-- A successful alert acknowledgment or resolution touches only the
alert list. -/
theorem acknowledgeAlert_ok_frame {st st' : QState} {aid now : Nat}
    (h : acknowledgeAlert st aid now = Except.ok st') :
    st'.commands = st.commands ∧ st'.devices = st.devices ∧
    st'.samples = st.samples ∧ st'.nextCmdId = st.nextCmdId := by
  unfold acknowledgeAlert at h
  split at h
  · exact Except.noConfusion h
  · split at h
    · exact Except.noConfusion h
    · cases Except.ok.inj h
      exact ⟨rfl, rfl, rfl, rfl⟩

/-- `resolveAlert` analogue of `acknowledgeAlert_ok_frame`. -/
theorem resolveAlert_ok_frame {st st' : QState} {aid now : Nat}
    (h : resolveAlert st aid now = Except.ok st') :
    st'.commands = st.commands ∧ st'.devices = st.devices ∧
    st'.samples = st.samples ∧ st'.nextCmdId = st.nextCmdId := by
  unfold resolveAlert at h
  split at h
  · exact Except.noConfusion h
  · split at h
    · exact Except.noConfusion h
    · cases Except.ok.inj h
      exact ⟨rfl, rfl, rfl, rfl⟩

/-- The fresh-id counter never decreases along a step. -/
theorem step_nextCmdId_le (st : QState) (op : Op) :
    st.nextCmdId ≤ (step st op).1.nextCmdId := by
  cases op with
  | enqueue d t p now => exact Nat.le_succ _
  | checkin d lat lon now =>
    simp only [step]
    split
    · exact Nat.le_refl _
    · rename_i r hr
      rcases checkin_ok_shape hr with ⟨st2, allow, _, hnext, _, rfl⟩
      rw [dequeueSuch_nextCmdId, hnext]
  | recordResult cid o p now =>
    simp only [step]
    split
    · exact Nat.le_refl _
    · rename_i r hr
      rcases record_result_ok_shape hr with hr1 | ⟨c, _, _, _, _, _, _, hn, _⟩
      · rw [hr1]
      · rw [hn]
  | ackAlert aid now =>
    simp only [step]
    split
    · exact Nat.le_refl _
    · rename_i st' hr
      rw [(acknowledgeAlert_ok_frame hr).2.2.2]
  | resAlert aid now =>
    simp only [step]
    split
    · exact Nat.le_refl _
    · rename_i st' hr
      rw [(resolveAlert_ok_frame hr).2.2.2]

/-- Well-formedness transports along equal id lists and a nondecreasing
counter. -/
theorem wf_of_same_ids {st st' : QState} (hwf : WF st)
    (hids : st'.commands.map Command.id = st.commands.map Command.id)
    (hnext : st.nextCmdId ≤ st'.nextCmdId) : WF st' := by
  obtain ⟨hnd, hbound⟩ := hwf
  constructor
  · rw [hids]
    exact hnd
  · intro c hc
    have hmem : c.id ∈ st.commands.map Command.id := by
      rw [← hids]
      exact List.mem_map_of_mem _ hc
    rcases List.mem_map.mp hmem with ⟨c0, hc0, hid⟩
    exact lt_of_lt_of_le (hid ▸ hbound c0 hc0) hnext

/-- `enqueue` preserves well-formedness. -/
theorem wf_enqueue {st : QState} (hwf : WF st) (d : Nat) (t : CmdType)
    (p : String) (now : Nat) : WF (enqueue st d t p now).1 := by
  obtain ⟨hnd, hbound⟩ := hwf
  have hids : ((if conflictingType t then supersedeConflicting d st.commands
      else st.commands).map Command.id) = st.commands.map Command.id := by
    split
    · exact supersedeConflicting_map_id _ _
    · rfl
  constructor
  · show (((if conflictingType t then supersedeConflicting d st.commands
      else st.commands) ++ [mkCommand st.nextCmdId d t p now]).map
        Command.id).Nodup
    rw [List.map_append, hids]
    refine List.Nodup.append hnd (List.nodup_singleton _) ?_
    intro a ha hb
    simp only [List.map_cons, List.map_nil, List.mem_singleton] at hb
    subst hb
    rcases List.mem_map.mp ha with ⟨c, hc, hid⟩
    exact absurd (hid ▸ hbound c hc) (lt_irrefl _)
  · intro c hc
    rcases List.mem_append.mp hc with hc | hc
    · have hmem : c.id ∈ st.commands.map Command.id := by
        rw [← hids]
        exact List.mem_map_of_mem _ hc
      rcases List.mem_map.mp hmem with ⟨c0, hc0, hid⟩
      exact Nat.lt_succ_of_lt (hid ▸ hbound c0 hc0)
    · simp only [List.mem_singleton] at hc
      subst hc
      exact Nat.lt_succ_self _

/-- Every step preserves well-formedness of the queue state. -/
theorem wf_step {st : QState} (hwf : WF st) (op : Op) : WF (step st op).1 := by
  cases op with
  | enqueue d t p now => exact wf_enqueue hwf d t p now
  | checkin d lat lon now =>
    simp only [step]
    split
    · exact hwf
    · rename_i r hr
      rcases checkin_ok_shape hr with ⟨st2, allow, hcmd, hnext, _, rfl⟩
      refine wf_of_same_ids hwf ?_ ?_
      · rw [dequeueSuch_map_id, hcmd]
      · rw [dequeueSuch_nextCmdId, hnext]
  | recordResult cid o p now =>
    simp only [step]
    split
    · exact hwf
    · rename_i r hr
      rcases record_result_ok_shape hr with hr1 | ⟨c, hfind, _, hcmds, _, _, _, hn, _⟩
      · rw [hr1]
        exact hwf
      · have hcid := List.find?_some hfind
        have hceq : c.id = cid := by simpa using hcid
        refine wf_of_same_ids hwf ?_ (le_of_eq hn.symm)
        rw [hcmds]
        refine map_id_of_preserves _ (fun x => ?_) _
        by_cases hx : (x.id == cid) = true
        · have hx' : x.id = cid := by simpa using hx
          simp [if_pos hx, resolveCommand, hceq, hx']
        · simp [hx]
  | ackAlert aid now =>
    simp only [step]
    split
    · exact hwf
    · rename_i st' hr
      obtain ⟨h1, _, _, h4⟩ := acknowledgeAlert_ok_frame hr
      exact wf_of_same_ids hwf (by rw [h1]) (le_of_eq h4.symm)
  | resAlert aid now =>
    simp only [step]
    split
    · exact hwf
    · rename_i st' hr
      obtain ⟨h1, _, _, h4⟩ := resolveAlert_ok_frame hr
      exact wf_of_same_ids hwf (by rw [h1]) (le_of_eq h4.symm)

/-- `dequeueSuch` never turns a non-pending command pending. -/
theorem dequeueSuch_preserves_notPending {st : QState} {d : Nat}
    {allow : CmdType → Bool} {now i : Nat}
    (h : ∀ c ∈ st.commands, c.id = i → c.status ≠ CmdStatus.pending) :
    ∀ c' ∈ (dequeueSuch st d allow now).1.commands, c'.id = i →
      c'.status ≠ CmdStatus.pending := by
  unfold dequeueSuch
  split
  · exact h
  · exact markSent_preserves_notPending h

/-- Once every command carrying an already-allocated id is out of
`pending`, no step ever brings one back: a delivered command can never be
delivered again. -/
theorem notPending_step {st : QState} {i : Nat} (op : Op)
    (hlt : i < st.nextCmdId) (h : NotPending st i) :
    NotPending (step st op).1 i := by
  cases op with
  | enqueue d t p now =>
    intro c' hc' hid
    rcases List.mem_append.mp hc' with hc' | hc'
    · by_cases hconf : conflictingType t = true
      · rw [if_pos hconf] at hc'
        rcases mem_supersede hc' with ⟨c, hm, _, hcase⟩
        rcases hcase with rfl | hfail
        · exact h _ hm hid
        · simp [hfail]
      · rw [if_neg hconf] at hc'
        exact h c' hc' hid
    · simp only [List.mem_singleton] at hc'
      subst hc'
      exact absurd hid (by simp only [mkCommand]; omega)
  | checkin d lat lon now =>
    simp only [step]
    split
    · exact h
    · rename_i r hr
      rcases checkin_ok_shape hr with ⟨st2, allow, hcmd, _, _, rfl⟩
      exact dequeueSuch_preserves_notPending (by rw [hcmd]; exact h)
  | recordResult cid o p now =>
    simp only [step]
    split
    · exact h
    · rename_i r hr
      rcases record_result_ok_shape hr with hr1 | ⟨c, _, _, hcmds, _, _, _, _, _⟩
      · rw [hr1]
        exact h
      · intro c' hc' hid
        rw [hcmds] at hc'
        rcases List.mem_map.mp hc' with ⟨x, hm, rfl⟩
        by_cases hx : (x.id == cid) = true
        · simp only [if_pos hx, resolveCommand]
          exact outcomeStatus_ne_pending o
        · simp only [if_neg hx] at hid ⊢
          exact h x hm hid
  | ackAlert aid now =>
    simp only [step]
    split
    · exact h
    · rename_i st' hr
      intro c' hc' hid
      refine h c' ?_ hid
      rw [← (acknowledgeAlert_ok_frame hr).1]
      exact hc'
  | resAlert aid now =>
    simp only [step]
    split
    · exact h
    · rename_i st' hr
      intro c' hc' hid
      refine h c' ?_ hid
      rw [← (resolveAlert_ok_frame hr).1]
      exact hc'

/-- A command delivered by a step was a pending command of the pre-state
carrying the same id. -/
theorem step_dequeued_pending {st : QState} {op : Op} {c : Command}
    (h : (step st op).2 = some c) :
    ∃ x ∈ st.commands, x.id = c.id ∧ x.status = CmdStatus.pending := by
  cases op with
  | enqueue d t p now => exact Option.noConfusion h
  | checkin d lat lon now =>
    simp only [step] at h
    split at h
    · exact Option.noConfusion h
    · rename_i r hr
      rcases checkin_ok_shape hr with ⟨st2, allow, hcmd, _, _, rfl⟩
      unfold dequeueSuch at h
      split at h
      · exact Option.noConfusion h
      · rename_i x hx
        cases h
        obtain ⟨hm, _, hp, _, _⟩ := oldestPendingSuch_spec hx
        exact ⟨x, hcmd ▸ hm, rfl, hp⟩
  | recordResult cid o p now =>
    simp only [step] at h
    split at h
    · exact Option.noConfusion h
    · exact Option.noConfusion h
  | ackAlert aid now =>
    simp only [step] at h
    split at h
    · exact Option.noConfusion h
    · exact Option.noConfusion h
  | resAlert aid now =>
    simp only [step] at h
    split at h
    · exact Option.noConfusion h
    · exact Option.noConfusion h

/-- After a step delivers command `c`, no command carrying `c.id` is
pending any more. -/
theorem step_dequeued_notPending {st : QState} {op : Op} {c : Command}
    (h : (step st op).2 = some c) :
    NotPending (step st op).1 c.id := by
  cases op with
  | enqueue d t p now => exact Option.noConfusion h
  | checkin d lat lon now =>
    simp only [step] at h ⊢
    split at h
    · exact Option.noConfusion h
    · rename_i r hr
      rcases checkin_ok_shape hr with ⟨st2, allow, hcmd, _, _, rfl⟩
      unfold dequeueSuch at h ⊢
      split at h
      · exact Option.noConfusion h
      · rename_i x hx
        have hc : c = { x with status := CmdStatus.sent, sentAt := some now } :=
          (Option.some.inj h).symm
        intro c' hc' hid
        exact markSent_notPending_self x.id now st2.commands c' hc'
          (by rw [hid, hc])
  | recordResult cid o p now =>
    simp only [step] at h
    split at h
    · exact Option.noConfusion h
    · exact Option.noConfusion h
  | ackAlert aid now =>
    simp only [step] at h
    split at h
    · exact Option.noConfusion h
    · exact Option.noConfusion h
  | resAlert aid now =>
    simp only [step] at h
    split at h
    · exact Option.noConfusion h
    · exact Option.noConfusion h

/-- An id whose commands are all out of `pending` is never delivered by
any later trace. -/
theorem notPending_not_mem_dequeuedIds {i : Nat} :
    ∀ (ops : List Op) (st : QState), i < st.nextCmdId → NotPending st i →
      i ∉ dequeuedIds st ops := by
  intro ops
  induction ops with
  | nil =>
    intro st _ _ hmem
    simp [dequeuedIds] at hmem
  | cons op ops ih =>
    intro st hlt hnp hmem
    simp only [dequeuedIds] at hmem
    rcases List.mem_append.mp hmem with hmem | hmem
    · cases hq : (step st op).2 with
      | none =>
        rw [hq] at hmem
        simp at hmem
      | some c =>
        rw [hq] at hmem
        simp only [List.mem_singleton] at hmem
        subst hmem
        rcases step_dequeued_pending hq with ⟨x, hm, hid, hp⟩
        exact absurd hp (hnp x hm hid)
    · exact ih (step st op).1
        (lt_of_lt_of_le hlt (step_nextCmdId_le st op))
        (notPending_step op hlt hnp) hmem

/-- Along any well-formed trace, the ids of delivered commands are
pairwise distinct. -/
theorem dequeuedIds_nodup :
    ∀ (ops : List Op) (st : QState), WF st → (dequeuedIds st ops).Nodup := by
  intro ops
  induction ops with
  | nil =>
    intro st _
    simp [dequeuedIds]
  | cons op ops ih =>
    intro st hwf
    simp only [dequeuedIds]
    cases hq : (step st op).2 with
    | none =>
      simpa using ih _ (wf_step hwf op)
    | some c =>
      refine List.nodup_cons.mpr ⟨?_, ih _ (wf_step hwf op)⟩
      rcases step_dequeued_pending hq with ⟨x, hm, hid, _⟩
      exact notPending_not_mem_dequeuedIds ops _
        (lt_of_lt_of_le (hid ▸ hwf.2 x hm) (step_nextCmdId_le st op))
        (step_dequeued_notPending hq)

/-- `find?` by id commutes with an id-preserving update map. -/
theorem find?_id_map_update {cid : Nat} {g : Command → Command}
    (hg : ∀ x, (g x).id = x.id) :
    ∀ (cs : List Command), (cs.map g).find? (fun x => x.id == cid) =
      (cs.find? (fun x => x.id == cid)).map g := by
  intro cs
  induction cs with
  | nil => rfl
  | cons x xs ih =>
    simp only [List.map_cons, List.find?_cons]
    by_cases hx : (x.id == cid) = true
    · rw [show ((g x).id == cid) = true by rw [hg]; exact hx, hx]
      rfl
    · rw [show ((g x).id == cid) = false by rw [hg]; exact Bool.of_not_eq_true hx,
        Bool.of_not_eq_true hx]
      exact ih

/-- After supersession for device `d`, no conflicting command of `d` is
still in flight. -/
theorem supersede_no_conflicting_inFlight (d : Nat) (cs : List Command) :
    ∀ y ∈ supersedeConflicting d cs, y.deviceId = d →
      conflictingType y.ctype = true → inFlight y = false := by
  intro y hy hd hc
  rcases List.mem_map.mp hy with ⟨c, hm, rfl⟩
  by_cases hcond :
      (c.deviceId == d && conflictingType c.ctype && inFlight c) = true
  · simp only [if_pos hcond]
    rfl
  · simp only [if_neg hcond] at hd hc ⊢
    cases hf : inFlight c with
    | false => rfl
    | true => exact absurd (by simp [hd, hc, hf]) hcond

/-- Both terminal statuses sit at rank two, the top of the chain. -/
theorem statusRank_le_two (s : CmdStatus) : statusRank s ≤ 2 := by
  cases s <;> simp [statusRank]

/-- With distinct ids, two queue members with the same id are equal. -/
theorem eq_of_mem_id_eq {cs : List Command}
    (hnd : (cs.map Command.id).Nodup) {a b : Command}
    (ha : a ∈ cs) (hb : b ∈ cs) (hid : a.id = b.id) : a = b :=
  List.inj_on_of_nodup_map hnd ha hb hid

/-- The status-chain condition holds trivially on an unchanged queue. -/
theorem status_mono_refl {cs : List Command}
    (hnd : (cs.map Command.id).Nodup) :
    ∀ c ∈ cs, ∀ c' ∈ cs, c'.id = c.id →
      statusRank c.status ≤ statusRank c'.status ∧
      (statusRank c.status = 2 → c' = c) := by
  intro c hc c' hc' hid
  have hcc : c' = c := eq_of_mem_id_eq hnd hc' hc hid
  subst hcc
  exact ⟨Nat.le_refl _, fun _ => rfl⟩

/-- A dequeue only moves the delivered pending command forward to `sent`
and never touches a terminal command. -/
theorem dequeueSuch_status_mono {st : QState}
    (hnd : (st.commands.map Command.id).Nodup) (d : Nat)
    (allow : CmdType → Bool) (now : Nat) :
    ∀ c ∈ st.commands, ∀ c' ∈ (dequeueSuch st d allow now).1.commands,
      c'.id = c.id →
      statusRank c.status ≤ statusRank c'.status ∧
      (statusRank c.status = 2 → c' = c) := by
  intro c hc c' hc' hid
  unfold dequeueSuch at hc'
  split at hc'
  · exact status_mono_refl hnd c hc c' hc' hid
  · rename_i x hx
    rcases List.mem_map.mp hc' with ⟨z, hz, rfl⟩
    obtain ⟨hxm, _, hxp, _, _⟩ := oldestPendingSuch_spec hx
    by_cases hzx : (z.id == x.id) = true
    · have hzid : z.id = c.id := by simpa [hzx] using hid
      have hzc : z = c := eq_of_mem_id_eq hnd hz hc hzid
      have hzx' : z.id = x.id := by simpa using hzx
      have hxz : x = z := eq_of_mem_id_eq hnd hxm hz hzx'.symm
      have hcs : c.status = CmdStatus.pending := by
        rw [← hzc, ← hxz]
        exact hxp
      constructor
      · simp only [if_pos hzx]
        rw [hcs]
        simp [statusRank]
      · intro h2
        rw [hcs] at h2
        simp [statusRank] at h2
    · simp only [if_neg hzx] at hid ⊢
      exact status_mono_refl hnd c hc z hz hid

/-- Over any single step from a well-formed state, every command's status
only moves forward along the chain, and a command in a terminal status is
never modified again. -/
theorem step_status_mono {st : QState} (hwf : WF st) (op : Op) :
    ∀ c ∈ st.commands, ∀ c' ∈ (step st op).1.commands, c'.id = c.id →
      statusRank c.status ≤ statusRank c'.status ∧
      (statusRank c.status = 2 → c' = c) := by
  obtain ⟨hnd, hbound⟩ := hwf
  cases op with
  | enqueue d t p now =>
    intro c hc c' hc' hid
    rcases List.mem_append.mp hc' with hc' | hc'
    · by_cases hconf : conflictingType t = true
      · rw [if_pos hconf] at hc'
        rcases List.mem_map.mp hc' with ⟨z, hz, rfl⟩
        by_cases hcond : (z.deviceId == d && conflictingType z.ctype &&
            inFlight z) = true
        · have hzid : z.id = c.id := by simpa [hcond] using hid
          have hzc : z = c := eq_of_mem_id_eq hnd hz hc hzid
          have hin : inFlight z = true := by
            simp only [Bool.and_eq_true] at hcond
            exact hcond.2
          have hzs : z.status = CmdStatus.pending ∨
              z.status = CmdStatus.sent := by
            unfold inFlight at hin
            simpa using hin
          constructor
          · simp only [if_pos hcond]
            rw [← hzc]
            exact statusRank_le_two _
          · intro h2
            rw [← hzc] at h2
            rcases hzs with hs | hs <;> rw [hs] at h2 <;>
              simp [statusRank] at h2
        · simp only [if_neg hcond] at hid ⊢
          exact status_mono_refl hnd c hc z hz hid
      · rw [if_neg hconf] at hc'
        exact status_mono_refl hnd c hc c' hc' hid
    · simp only [List.mem_singleton] at hc'
      subst hc'
      exfalso
      have hb := hbound c hc
      have hmk : (mkCommand st.nextCmdId d t p now).id = st.nextCmdId := rfl
      rw [hmk] at hid
      omega
  | checkin d lat lon now =>
    simp only [step]
    split
    · exact status_mono_refl hnd
    · rename_i r hr
      rcases checkin_ok_shape hr with ⟨st2, allow, hcmd, _, _, rfl⟩
      intro c hc c' hc' hid
      exact @dequeueSuch_status_mono st2 (by rw [hcmd]; exact hnd)
        d allow now c (by rw [hcmd]; exact hc) c' hc' hid
  | recordResult cid o p now =>
    simp only [step]
    split
    · exact status_mono_refl hnd
    · rename_i r hr
      rcases record_result_ok_shape hr with hr1 |
        ⟨cf, hfind, hsent, hcmds, _, _, _, _, _⟩
      · rw [hr1]
        exact status_mono_refl hnd
      · intro c hc c' hc' hid
        rw [hcmds] at hc'
        rcases List.mem_map.mp hc' with ⟨z, hz, rfl⟩
        have hcfid : cf.id = cid := by simpa using List.find?_some hfind
        have hcfm : cf ∈ st.commands := List.mem_of_find?_eq_some hfind
        by_cases hzx : (z.id == cid) = true
        · have hzcid : z.id = cid := by simpa using hzx
          have hvid : (resolveCommand cf o p now).id = cid := by
            simp [resolveCommand, hcfid]
          have hzid : z.id = c.id := by
            rw [hzcid, ← hvid]
            simpa [hzx] using hid
          have hzc : z = c := eq_of_mem_id_eq hnd hz hc hzid
          have hcfz : cf = z :=
            eq_of_mem_id_eq hnd hcfm hz (by rw [hcfid, hzcid])
          have hcs : c.status = CmdStatus.sent := by
            rw [← hzc, ← hcfz]
            exact hsent
          constructor
          · simp only [if_pos hzx]
            rw [hcs]
            have houtr : statusRank (outcomeStatus o) = 2 := by
              cases o <;> rfl
            show statusRank CmdStatus.sent ≤ statusRank (outcomeStatus o)
            rw [houtr]
            simp [statusRank]
          · intro h2
            rw [hcs] at h2
            simp [statusRank] at h2
        · simp only [if_neg hzx] at hid ⊢
          exact status_mono_refl hnd c hc z hz hid
  | ackAlert aid now =>
    simp only [step]
    split
    · exact status_mono_refl hnd
    · rename_i st' hr
      intro c hc c' hc' hid
      exact status_mono_refl hnd c hc c'
        ((acknowledgeAlert_ok_frame hr).1 ▸ hc') hid
  | resAlert aid now =>
    simp only [step]
    split
    · exact status_mono_refl hnd
    · rename_i st' hr
      intro c hc c' hc' hid
      exact status_mono_refl hnd c hc c'
        ((resolveAlert_ok_frame hr).1 ▸ hc') hid

/-- Resolving an outcome never changes a device's id. -/
theorem applyOutcomeToDevice_id (t : CmdType) (o : Outcome) (v : Device) :
    (applyOutcomeToDevice t o v).id = v.id := by
  cases o <;> cases t <;> rfl

/-- Resolving an outcome never clears the wiped flag. -/
theorem applyOutcomeToDevice_wiped (t : CmdType) (o : Outcome) (v : Device)
    (h : v.isWiped = true) : (applyOutcomeToDevice t o v).isWiped = true := by
  cases o <;> cases t <;> simp [applyOutcomeToDevice, h]

/-- An id-preserving device update keeps the device id list. -/
theorem map_devId_of_preserves (g : Device → Device)
    (hg : ∀ v, (g v).id = v.id) (vs : List Device) :
    (vs.map g).map Device.id = vs.map Device.id := by
  induction vs with
  | nil => rfl
  | cons x xs ih => simp [hg, ih]

/-- Every step acts on the device registry as a pointwise, id-preserving
update that never clears the wiped flag. -/
theorem step_devices_pointwise (st : QState) (op : Op) :
    ∃ g : Device → Device, (step st op).1.devices = st.devices.map g ∧
      (∀ v, (g v).id = v.id) ∧
      (∀ v, v.isWiped = true → (g v).isWiped = true) := by
  cases op with
  | enqueue d t p now =>
    exact ⟨id, (List.map_id _).symm, fun v => rfl, fun v h => h⟩
  | checkin d lat lon now =>
    simp only [step]
    split
    · exact ⟨id, (List.map_id _).symm, fun v => rfl, fun v h => h⟩
    · rename_i r hr
      unfold checkin at hr
      split at hr
      · exact Except.noConfusion hr
      · split at hr
        · exact Except.noConfusion hr
        · cases Except.ok.inj hr
          refine ⟨fun v => if v.id == d then
            { v with online := true, lastSeen := some now } else v, ?_, ?_, ?_⟩
          · rw [(dequeueSuch_frame _ _ _ _).1]
          · intro v
            by_cases hv : (v.id == d) = true <;> simp [hv]
          · intro v h
            by_cases hv : (v.id == d) = true <;> simp [hv, h]
  | recordResult cid o p now =>
    simp only [step]
    split
    · exact ⟨id, (List.map_id _).symm, fun v => rfl, fun v h => h⟩
    · rename_i r hr
      rcases record_result_ok_shape hr with hr1 |
        ⟨cf, _, _, _, hdevs, _, _, _, _⟩
      · rw [hr1]
        exact ⟨id, (List.map_id _).symm, fun v => rfl, fun v h => h⟩
      · refine ⟨fun v => if v.id == cf.deviceId then
          applyOutcomeToDevice cf.ctype o v else v, hdevs, ?_, ?_⟩
        · intro v
          by_cases hv : (v.id == cf.deviceId) = true <;>
            simp [hv, applyOutcomeToDevice_id]
        · intro v h
          by_cases hv : (v.id == cf.deviceId) = true <;>
            simp [hv, h, applyOutcomeToDevice_wiped]
  | ackAlert aid now =>
    simp only [step]
    split
    · exact ⟨id, (List.map_id _).symm, fun v => rfl, fun v h => h⟩
    · rename_i st' hr
      rw [(acknowledgeAlert_ok_frame hr).2.1]
      exact ⟨id, (List.map_id _).symm, fun v => rfl, fun v h => h⟩
  | resAlert aid now =>
    simp only [step]
    split
    · exact ⟨id, (List.map_id _).symm, fun v => rfl, fun v h => h⟩
    · rename_i st' hr
      rw [(resolveAlert_ok_frame hr).2.1]
      exact ⟨id, (List.map_id _).symm, fun v => rfl, fun v h => h⟩

/-- With distinct device ids, a wiped device stays wiped across any
step. -/
theorem step_wiped_mono {st : QState}
    (hdw : (st.devices.map Device.id).Nodup) (op : Op) :
    ∀ dev ∈ st.devices, dev.isWiped = true →
      ∀ dev' ∈ (step st op).1.devices, dev'.id = dev.id →
        dev'.isWiped = true := by
  obtain ⟨g, hmap, hgid, hgw⟩ := step_devices_pointwise st op
  intro dev hdev hw dev' hdev' hid
  rw [hmap] at hdev'
  rcases List.mem_map.mp hdev' with ⟨z, hz, rfl⟩
  have hzid : z.id = dev.id := by
    rw [← hgid z]
    exact hid
  have hzdev : z = dev := List.inj_on_of_nodup_map hdw hz hdev hzid
  subst hzdev
  exact hgw z hw

/-- Distinctness of device ids is preserved by every step. -/
theorem step_devices_nodup {st : QState}
    (hdw : (st.devices.map Device.id).Nodup) (op : Op) :
    ((step st op).1.devices.map Device.id).Nodup := by
  obtain ⟨g, hmap, hgid, _⟩ := step_devices_pointwise st op
  rw [hmap, map_devId_of_preserves g hgid]
  exact hdw

/-- With distinct device ids, a wiped device stays wiped along any whole
trace of operations. -/
theorem runOps_wiped_mono :
    ∀ (ops : List Op) (st : QState),
      (st.devices.map Device.id).Nodup →
      ∀ dev ∈ st.devices, dev.isWiped = true →
        ∀ dev' ∈ (runOps st ops).devices, dev'.id = dev.id →
          dev'.isWiped = true := by
  intro ops
  induction ops with
  | nil =>
    intro st hdw dev hdev hw dev' hdev' hid
    have : dev' = dev := List.inj_on_of_nodup_map hdw hdev' hdev hid
    rw [this]
    exact hw
  | cons op ops ih =>
    intro st hdw dev hdev hw dev' hdev' hid
    obtain ⟨g, hmap, hgid, hgw⟩ := step_devices_pointwise st op
    have hgmem : g dev ∈ (step st op).1.devices := by
      rw [hmap]
      exact List.mem_map_of_mem g hdev
    exact ih (step st op).1 (step_devices_nodup hdw op) (g dev) hgmem
      (hgw dev hw) dev' hdev' (by rw [hid, hgid])

/-- Every step makes a device wiped only through a successful execution
report of a sent wipe command for that device. -/
theorem step_wiped_source (st : QState) (op : Op) :
    ∀ dev' ∈ (step st op).1.devices, dev'.isWiped = true →
      ∃ dev ∈ st.devices, dev.id = dev'.id ∧
        (dev.isWiped = true ∨
          ∃ cid p now, op = Op.recordResult cid Outcome.executed p now ∧
            ∃ c ∈ st.commands, c.id = cid ∧ c.ctype = CmdType.wipe ∧
              c.status = CmdStatus.sent ∧ c.deviceId = dev.id) := by
  cases op with
  | enqueue d t p now =>
    exact fun dev' h hw => ⟨dev', h, rfl, Or.inl hw⟩
  | checkin d lat lon now =>
    simp only [step]
    split
    · exact fun dev' h hw => ⟨dev', h, rfl, Or.inl hw⟩
    · rename_i r hr
      unfold checkin at hr
      split at hr
      · exact Except.noConfusion hr
      · split at hr
        · exact Except.noConfusion hr
        · cases Except.ok.inj hr
          intro dev' hdev' hw
          rw [(dequeueSuch_frame _ _ _ _).1] at hdev'
          rcases List.mem_map.mp hdev' with ⟨z, hz, rfl⟩
          by_cases hv : (z.id == d) = true
          · refine ⟨z, hz, by simp [hv], Or.inl ?_⟩
            simpa [hv] using hw
          · refine ⟨z, hz, by simp [hv], Or.inl ?_⟩
            simpa [hv] using hw
  | recordResult cid o p now =>
    simp only [step]
    split
    · exact fun dev' h hw => ⟨dev', h, rfl, Or.inl hw⟩
    · rename_i r hr
      rcases record_result_ok_shape hr with hr1 |
        ⟨cf, hfind, hsent, _, hdevs, _, _, _, _⟩
      · rw [hr1]
        exact fun dev' h hw => ⟨dev', h, rfl, Or.inl hw⟩
      · intro dev' hdev' hw
        rw [hdevs] at hdev'
        rcases List.mem_map.mp hdev' with ⟨z, hz, rfl⟩
        by_cases hv : (z.id == cf.deviceId) = true
        · cases o with
          | failed =>
            refine ⟨z, hz, by simp [hv, applyOutcomeToDevice], Or.inl ?_⟩
            simpa [hv, applyOutcomeToDevice] using hw
          | executed =>
            cases hct : cf.ctype with
            | wipe =>
              refine ⟨z, hz, by simp [hv, applyOutcomeToDevice_id], Or.inr ?_⟩
              refine ⟨cid, p, now, rfl, cf,
                List.mem_of_find?_eq_some hfind,
                by simpa using List.find?_some hfind, hct, hsent, ?_⟩
              have : z.id = cf.deviceId := by simpa using hv
              rw [this]
            | lock =>
              refine ⟨z, hz, by simp [hv, applyOutcomeToDevice_id], Or.inl ?_⟩
              simpa [hv, applyOutcomeToDevice, hct] using hw
            | unlock =>
              refine ⟨z, hz, by simp [hv, applyOutcomeToDevice_id], Or.inl ?_⟩
              simpa [hv, applyOutcomeToDevice, hct] using hw
            | restart =>
              refine ⟨z, hz, by simp [hv, applyOutcomeToDevice_id], Or.inl ?_⟩
              simpa [hv, applyOutcomeToDevice, hct] using hw
            | shutdown =>
              refine ⟨z, hz, by simp [hv, applyOutcomeToDevice_id], Or.inl ?_⟩
              simpa [hv, applyOutcomeToDevice, hct] using hw
            | message =>
              refine ⟨z, hz, by simp [hv, applyOutcomeToDevice_id], Or.inl ?_⟩
              simpa [hv, applyOutcomeToDevice, hct] using hw
            | screenshot =>
              refine ⟨z, hz, by simp [hv, applyOutcomeToDevice_id], Or.inl ?_⟩
              simpa [hv, applyOutcomeToDevice, hct] using hw
        · refine ⟨z, hz, by simp [hv], Or.inl ?_⟩
          simpa [hv] using hw
  | ackAlert aid now =>
    simp only [step]
    split
    · exact fun dev' h hw => ⟨dev', h, rfl, Or.inl hw⟩
    · rename_i st' hr
      rw [(acknowledgeAlert_ok_frame hr).2.1]
      exact fun dev' h hw => ⟨dev', h, rfl, Or.inl hw⟩
  | resAlert aid now =>
    simp only [step]
    split
    · exact fun dev' h hw => ⟨dev', h, rfl, Or.inl hw⟩
    · rename_i st' hr
      rw [(resolveAlert_ok_frame hr).2.1]
      exact fun dev' h hw => ⟨dev', h, rfl, Or.inl hw⟩

/-- Acknowledging never moves an alert backward along its lifecycle. -/
theorem alertRank_ack_le (x : Alert) (now : Nat) :
    alertRank x ≤ alertRank { x with acked := true, ackedAt := some now } := by
  unfold alertRank
  by_cases hr : x.resolved <;> by_cases ha : x.acked <;> simp [hr, ha]

/-- Resolving never moves an alert backward along its lifecycle. -/
theorem alertRank_resolve_le (x : Alert) (now : Nat) :
    alertRank x ≤
      alertRank { x with resolved := true, resolvedAt := some now } := by
  unfold alertRank
  by_cases hr : x.resolved <;> by_cases ha : x.acked <;> simp [hr, ha]

/-! ## Claim theorems for the command queue -/

/-- **C1.** `dequeue_next` returns `none` exactly when the device has no
pending command; otherwise it selects a pending command of the device
with minimal `createdAt`, returns it transitioned to `sent` with `sentAt`
stamped (the queue records the same transition), touches no other
command — so a check-in dequeues at most that one command — and along any
trace of operations from a well-formed state no two deliveries ever carry
the same command id. -/
theorem dequeue_next_spec (st : QState) (d now : Nat) (ops : List Op)
    (hwf : WF st) :
    ((dequeue_next st d now).2 = none →
      (dequeue_next st d now).1 = st ∧
      ∀ y ∈ st.commands,
        ¬(y.deviceId = d ∧ y.status = CmdStatus.pending)) ∧
    (∀ c, (dequeue_next st d now).2 = some c →
      ∃ x ∈ st.commands, x.deviceId = d ∧ x.status = CmdStatus.pending ∧
        c = { x with status := CmdStatus.sent, sentAt := some now } ∧
        (∀ y ∈ st.commands, y.deviceId = d → y.status = CmdStatus.pending →
          x.createdAt ≤ y.createdAt) ∧
        (dequeue_next st d now).1.commands = markSent x.id now st.commands ∧
        c ∈ (dequeue_next st d now).1.commands ∧
        (∀ y ∈ (dequeue_next st d now).1.commands, y.id ≠ c.id →
          y ∈ st.commands)) ∧
    (dequeuedIds st ops).Nodup := by
  refine ⟨?_, ?_, dequeuedIds_nodup ops st hwf⟩
  · intro h
    unfold dequeue_next dequeueSuch at h ⊢
    split at h
    · rename_i hnone
      refine ⟨rfl, ?_⟩
      intro y hy hcon
      exact oldestPendingSuch_eq_none_forall hnone y hy ⟨hcon.1, hcon.2, rfl⟩
    · exact Option.noConfusion h
  · intro c h
    unfold dequeue_next dequeueSuch at h ⊢
    split at h
    · exact Option.noConfusion h
    · rename_i x hx
      have hc : c = { x with status := CmdStatus.sent, sentAt := some now } :=
        (Option.some.inj h).symm
      obtain ⟨hm, hdv, hp, _, hmin⟩ := oldestPendingSuch_spec hx
      refine ⟨x, hm, hdv, hp, hc, ?_, rfl, ?_, ?_⟩
      · intro y hy hyd hyp
        exact hmin y hy hyd hyp rfl
      · rw [hc]
        have : ({ x with status := CmdStatus.sent, sentAt := some now } :
            Command) = if (x.id == x.id) = true then
              { x with status := CmdStatus.sent, sentAt := some now } else x := by
          simp
        rw [this]
        exact List.mem_map_of_mem
          (fun z => if (z.id == x.id) = true then
            { z with status := CmdStatus.sent, sentAt := some now } else z) hm
      · intro y hy hne
        rcases mem_markSent hy with ⟨z, hz, hzid, hcase⟩
        rcases hcase with rfl | ⟨hzx, rfl⟩
        · exact hz
        · exfalso
          apply hne
          rw [hc]
          simp [hzx]

/-- Witness for `dequeue_next_spec`: a two-command queue, the older
command is delivered and the trace of two check-ins delivers distinct
ids. -/
theorem dequeue_next_spec_witness :
    ((dequeue_next
        ⟨[mkCommand 0 1 CmdType.lock "" 5, mkCommand 1 1 CmdType.message "hi" 3],
          [⟨1, false, false, false, none⟩], [], [], 2⟩ 1 10).2 = none →
      (dequeue_next
        ⟨[mkCommand 0 1 CmdType.lock "" 5, mkCommand 1 1 CmdType.message "hi" 3],
          [⟨1, false, false, false, none⟩], [], [], 2⟩ 1 10).1 =
        ⟨[mkCommand 0 1 CmdType.lock "" 5, mkCommand 1 1 CmdType.message "hi" 3],
          [⟨1, false, false, false, none⟩], [], [], 2⟩ ∧
      ∀ y ∈ (⟨[mkCommand 0 1 CmdType.lock "" 5,
          mkCommand 1 1 CmdType.message "hi" 3],
          [⟨1, false, false, false, none⟩], [], [], 2⟩ : QState).commands,
        ¬(y.deviceId = 1 ∧ y.status = CmdStatus.pending)) ∧
    (∀ c, (dequeue_next
        ⟨[mkCommand 0 1 CmdType.lock "" 5, mkCommand 1 1 CmdType.message "hi" 3],
          [⟨1, false, false, false, none⟩], [], [], 2⟩ 1 10).2 = some c →
      ∃ x ∈ (⟨[mkCommand 0 1 CmdType.lock "" 5,
          mkCommand 1 1 CmdType.message "hi" 3],
          [⟨1, false, false, false, none⟩], [], [], 2⟩ : QState).commands,
        x.deviceId = 1 ∧ x.status = CmdStatus.pending ∧
        c = { x with status := CmdStatus.sent, sentAt := some 10 } ∧
        (∀ y ∈ (⟨[mkCommand 0 1 CmdType.lock "" 5,
            mkCommand 1 1 CmdType.message "hi" 3],
            [⟨1, false, false, false, none⟩], [], [], 2⟩ : QState).commands,
          y.deviceId = 1 → y.status = CmdStatus.pending →
            x.createdAt ≤ y.createdAt) ∧
        (dequeue_next
          ⟨[mkCommand 0 1 CmdType.lock "" 5, mkCommand 1 1 CmdType.message "hi" 3],
            [⟨1, false, false, false, none⟩], [], [], 2⟩ 1 10).1.commands =
          markSent x.id 10 (⟨[mkCommand 0 1 CmdType.lock "" 5,
            mkCommand 1 1 CmdType.message "hi" 3],
            [⟨1, false, false, false, none⟩], [], [], 2⟩ : QState).commands ∧
        c ∈ (dequeue_next
          ⟨[mkCommand 0 1 CmdType.lock "" 5, mkCommand 1 1 CmdType.message "hi" 3],
            [⟨1, false, false, false, none⟩], [], [], 2⟩ 1 10).1.commands ∧
        (∀ y ∈ (dequeue_next
            ⟨[mkCommand 0 1 CmdType.lock "" 5,
              mkCommand 1 1 CmdType.message "hi" 3],
              [⟨1, false, false, false, none⟩], [], [], 2⟩ 1 10).1.commands,
          y.id ≠ c.id →
          y ∈ (⟨[mkCommand 0 1 CmdType.lock "" 5,
            mkCommand 1 1 CmdType.message "hi" 3],
            [⟨1, false, false, false, none⟩], [], [], 2⟩ : QState).commands)) ∧
    (dequeuedIds
      ⟨[mkCommand 0 1 CmdType.lock "" 5, mkCommand 1 1 CmdType.message "hi" 3],
        [⟨1, false, false, false, none⟩], [], [], 2⟩
      [Op.checkin 1 0 0 10, Op.checkin 1 0 0 11]).Nodup :=
  dequeue_next_spec
    ⟨[mkCommand 0 1 CmdType.lock "" 5, mkCommand 1 1 CmdType.message "hi" 3],
      [⟨1, false, false, false, none⟩], [], [], 2⟩ 1 10
    [Op.checkin 1 0 0 10, Op.checkin 1 0 0 11] (by decide)

/-! ## Claim theorems for the frontend utilities -/

/-- **C10.** For every string `s` and every length `n`: `truncate s n`
returns `s` unchanged when `s` has at most `n` characters, and otherwise
returns the first `n` characters of `s` followed by `"..."`, whose length
is exactly `n + 3`. (The model is a pure function over immutable strings,
so the original string is never mutated.) -/
theorem truncate_spec (s : String) (n : Nat) :
    (s.length ≤ n → truncate s n = s) ∧
    (n < s.length →
      truncate s n = s.take n ++ "..." ∧ (truncate s n).length = n + 3) := by
  constructor
  · intro h
    simp [truncate, h]
  · intro h
    have hnot : ¬ s.length ≤ n := Nat.not_le.mpr h
    refine ⟨by simp [truncate, hnot], ?_⟩
    have htake : (s.take n).length = n := by
      rw [String.take_eq, String.length_mk, List.length_take]
      exact Nat.min_eq_left (Nat.le_of_lt h)
    have hdots : ("..." : String).length = 3 := rfl
    simp [truncate, hnot, String.length_append, htake, hdots]

/-- Witness for `truncate_spec` at a concrete input. -/
theorem truncate_spec_witness :
    ("hello".length ≤ 7 → truncate "hello" 7 = "hello") ∧
    (7 < "hello".length →
      truncate "hello" 7 = "hello".take 7 ++ "..." ∧
        (truncate "hello" 7).length = 7 + 3) :=
  truncate_spec "hello" 7

/-- **C9.** `useIsAdmin` returns `true` exactly when a user is present
whose role is `super_admin` or `it_admin`; for a `viewer` user or when no
user is logged in it returns `false`, and the Settings page then renders
the permission-denied view instead of the policy form. -/
theorem useIsAdmin_spec (user : Option AuthUser) :
    (useIsAdmin user = true ↔
      ∃ u, user = some u ∧ (u.role = "super_admin" ∨ u.role = "it_admin")) ∧
    (∀ u, user = some u → u.role = "viewer" → useIsAdmin user = false) ∧
    (useIsAdmin none = false) ∧
    (useIsAdmin user = false →
      settingsPageView (useIsAdmin user) = SettingsView.permissionDenied) := by
  refine ⟨?_, ?_, rfl, ?_⟩
  · cases user with
    | none => simp [useIsAdmin]
    | some u =>
      simp only [useIsAdmin, Bool.or_eq_true, beq_iff_eq, Option.some.injEq]
      constructor
      · intro h
        exact ⟨u, rfl, h⟩
      · rintro ⟨v, rfl, h⟩
        exact h
  · intro u hu hrole
    subst hu
    simp [useIsAdmin, hrole]
  · intro h
    simp [h, settingsPageView]

/-- Witness for `useIsAdmin_spec` at a concrete input: a viewer user. -/
theorem useIsAdmin_spec_witness :
    (useIsAdmin (some ⟨"v@x.io", "viewer"⟩) = true ↔
      ∃ u, some (⟨"v@x.io", "viewer"⟩ : AuthUser) = some u ∧
        (u.role = "super_admin" ∨ u.role = "it_admin")) ∧
    (∀ u, some (⟨"v@x.io", "viewer"⟩ : AuthUser) = some u → u.role = "viewer" →
      useIsAdmin (some ⟨"v@x.io", "viewer"⟩) = false) ∧
    (useIsAdmin none = false) ∧
    (useIsAdmin (some ⟨"v@x.io", "viewer"⟩) = false →
      settingsPageView (useIsAdmin (some ⟨"v@x.io", "viewer"⟩)) =
        SettingsView.permissionDenied) :=
  useIsAdmin_spec (some ⟨"v@x.io", "viewer"⟩)


/-- **C2.** With a pending lock command for a device in the queue,
enqueuing a wipe for that device: the new command is a pending wipe for
the device; the lock command is marked `failed` with reason
`"superseded"`; the new command is the only pending wipe of the device;
exactly one command was created (the id list grows by exactly the fresh
id); and the §3 invariant — at most one in-flight wipe-or-lock command
per device — is preserved for every device. -/
theorem enqueue_wipe_supersedes_pending_lock (st : QState) (d : Nat)
    (p : String) (now : Nat) (lc : Command) (hlc : lc ∈ st.commands)
    (hld : lc.deviceId = d) (hlty : lc.ctype = CmdType.lock)
    (hlp : lc.status = CmdStatus.pending) :
    (enqueue st d CmdType.wipe p now).2.deviceId = d ∧
    (enqueue st d CmdType.wipe p now).2.ctype = CmdType.wipe ∧
    (enqueue st d CmdType.wipe p now).2.status = CmdStatus.pending ∧
    { lc with status := CmdStatus.failed, failReason := some "superseded" }
      ∈ (enqueue st d CmdType.wipe p now).1.commands ∧
    pendingWipes d (enqueue st d CmdType.wipe p now).1 =
      [(enqueue st d CmdType.wipe p now).2] ∧
    (enqueue st d CmdType.wipe p now).1.commands.map Command.id =
      st.commands.map Command.id ++ [st.nextCmdId] ∧
    ∀ d', (inFlightConflicting d' st).length ≤ 1 →
      (inFlightConflicting d'
        (enqueue st d CmdType.wipe p now).1).length ≤ 1 := by
  have hpost : (enqueue st d CmdType.wipe p now).1.commands =
      supersedeConflicting d st.commands ++
        [mkCommand st.nextCmdId d CmdType.wipe p now] := by
    simp [enqueue, conflictingType]
  refine ⟨rfl, rfl, rfl, ?_, ?_, ?_, ?_⟩
  · rw [hpost]
    refine List.mem_append_left _ ?_
    have hcond :
        (lc.deviceId == d && conflictingType lc.ctype && inFlight lc) =
          true := by
      simp [hld, hlty, hlp, conflictingType, inFlight]
    have hval : ({ lc with status := CmdStatus.failed, failReason := some "superseded" } : Command) =
        if (lc.deviceId == d && conflictingType lc.ctype && inFlight lc) =
            true then
          { lc with status := CmdStatus.failed, failReason := some "superseded" }
        else lc := by
      rw [if_pos hcond]
    rw [hval]
    exact List.mem_map_of_mem _ hlc
  · show (enqueue st d CmdType.wipe p now).1.commands.filter _ = _
    rw [hpost, List.filter_append]
    have h1 : (supersedeConflicting d st.commands).filter
        (fun x => x.deviceId == d && x.ctype == CmdType.wipe &&
          x.status == CmdStatus.pending) = [] := by
      refine List.filter_eq_nil_iff.mpr ?_
      intro y hy hpred
      simp only [Bool.and_eq_true, beq_iff_eq] at hpred
      have hfl := supersede_no_conflicting_inFlight d st.commands y hy
        hpred.1.1 (by simp [conflictingType, hpred.1.2])
      unfold inFlight at hfl
      rw [hpred.2] at hfl
      simp at hfl
    have h2 : ([mkCommand st.nextCmdId d CmdType.wipe p now].filter
        (fun x => x.deviceId == d && x.ctype == CmdType.wipe &&
          x.status == CmdStatus.pending)) =
        [mkCommand st.nextCmdId d CmdType.wipe p now] := by
      simp [mkCommand]
    rw [h1, h2, List.nil_append]
    rfl
  · rw [hpost, List.map_append, supersedeConflicting_map_id]
    rfl
  · intro d' hinv
    show ((enqueue st d CmdType.wipe p now).1.commands.filter _).length ≤ 1
    rw [hpost, List.filter_append]
    by_cases hdd : d' = d
    · subst hdd
      have h1 : (supersedeConflicting d' st.commands).filter
          (fun x => x.deviceId == d' && conflictingType x.ctype &&
            inFlight x) = [] := by
        refine List.filter_eq_nil_iff.mpr ?_
        intro y hy hpred
        simp only [Bool.and_eq_true, beq_iff_eq] at hpred
        have hfl := supersede_no_conflicting_inFlight d' st.commands y hy
          hpred.1.1 hpred.1.2
        rw [hpred.2] at hfl
        exact Bool.noConfusion hfl
      rw [h1, List.nil_append]
      exact List.length_filter_le _ _
    · have h2 : ([mkCommand st.nextCmdId d CmdType.wipe p now].filter
          (fun x => x.deviceId == d' && conflictingType x.ctype &&
            inFlight x)) = [] := by
        simp [mkCommand, Ne.symm hdd]
      rw [h2, List.append_nil]
      have h4 : ∀ c ∈ st.commands,
          ((fun x => x.deviceId == d' && conflictingType x.ctype &&
            inFlight x) ∘ (fun c =>
              if (c.deviceId == d && conflictingType c.ctype &&
                  inFlight c) = true then
                { c with status := CmdStatus.failed, failReason := some "superseded" }
              else c)) c =
          (fun x => x.deviceId == d' && conflictingType x.ctype &&
            inFlight x) c := by
        intro c _
        by_cases hcond : (c.deviceId == d && conflictingType c.ctype &&
            inFlight c) = true
        · have hcd : c.deviceId = d := by
            simp only [Bool.and_eq_true, beq_iff_eq] at hcond
            exact hcond.1.1
          have hne : (c.deviceId == d') = false := by
            simp [hcd, Ne.symm hdd]
          simp only [Function.comp, if_pos hcond]
          simp [hne, inFlight]
        · simp only [Function.comp, if_neg hcond]
      unfold supersedeConflicting
      rw [List.filter_map, List.length_map, List.filter_congr h4]
      exact hinv

/-- Witness for `enqueue_wipe_supersedes_pending_lock`: enqueuing a wipe
on the sample state, whose queue holds the pending lock `sampleLock`. -/
theorem enqueue_wipe_supersedes_pending_lock_witness :
    (enqueue sampleState 1 CmdType.wipe "" 9).2.deviceId = 1 ∧
    (enqueue sampleState 1 CmdType.wipe "" 9).2.ctype = CmdType.wipe ∧
    (enqueue sampleState 1 CmdType.wipe "" 9).2.status = CmdStatus.pending ∧
    { sampleLock with status := CmdStatus.failed, failReason := some "superseded" }
      ∈ (enqueue sampleState 1 CmdType.wipe "" 9).1.commands ∧
    pendingWipes 1 (enqueue sampleState 1 CmdType.wipe "" 9).1 =
      [(enqueue sampleState 1 CmdType.wipe "" 9).2] ∧
    (enqueue sampleState 1 CmdType.wipe "" 9).1.commands.map Command.id =
      sampleState.commands.map Command.id ++ [sampleState.nextCmdId] ∧
    (∀ d', (inFlightConflicting d' sampleState).length ≤ 1 →
      (inFlightConflicting d'
        (enqueue sampleState 1 CmdType.wipe "" 9).1).length ≤ 1) :=
  enqueue_wipe_supersedes_pending_lock sampleState 1 "" 9 sampleLock
    (by decide) (by decide) (by decide) (by decide)

/-- **C3.** `record_result` is idempotent under duplicate delivery: after
any successful call, replaying the call with the identical command id,
outcome and payload (at any later time) succeeds again, returns the same
command, and leaves the entire state — commands, devices, samples and
alerts — exactly as the first call left it; it does not return an
error. -/
theorem record_result_idempotent (st : QState) (cid : Nat) (o : Outcome)
    (p : String) (t1 t2 : Nat) (st' : QState) (c' : Command)
    (h : record_result st cid o p t1 = Except.ok (st', c')) :
    record_result st' cid o p t2 = Except.ok (st', c') := by
  unfold record_result at h
  split at h
  · exact Except.noConfusion h
  · rename_i c hfind
    have hcid := List.find?_some hfind
    have hceq : c.id = cid := by simpa using hcid
    split at h
    · rename_i hsent
      have hp := Except.ok.inj h
      rw [Prod.mk.injEq] at hp
      obtain ⟨rfl, rfl⟩ := hp
      unfold record_result
      have hg : ∀ x : Command,
          ((fun x => if x.id == cid then resolveCommand c o p t1 else x)
            x).id = x.id := by
        intro x
        by_cases hx : (x.id == cid) = true
        · have hx' : x.id = cid := by simpa using hx
          simp [if_pos hx, resolveCommand, hceq, hx']
        · simp [hx]
      have hfind2 : ((st.commands.map fun x =>
          if x.id == cid then resolveCommand c o p t1 else x).find?
            (fun x => x.id == cid)) =
          some (resolveCommand c o p t1) := by
        rw [find?_id_map_update hg st.commands, hfind]
        simp only [Option.map_some', if_pos hcid]
      simp only [hfind2]
      cases o with
      | executed => simp [resolveCommand, outcomeStatus]
      | failed => simp [resolveCommand, outcomeStatus]
    · exact Except.noConfusion h
    · rename_i hterm
      split at h
      · rename_i hcond
        have hp := Except.ok.inj h
        rw [Prod.mk.injEq] at hp
        obtain ⟨rfl, rfl⟩ := hp
        unfold record_result
        simp [hfind, hterm, hcond]
      · exact Except.noConfusion h
    · rename_i hterm
      split at h
      · rename_i hcond
        have hp := Except.ok.inj h
        rw [Prod.mk.injEq] at hp
        obtain ⟨rfl, rfl⟩ := hp
        unfold record_result
        simp [hfind, hterm, hcond]
      · exact Except.noConfusion h

/-- Witness for `record_result_idempotent`: resolving the sent wipe on
the sample state and replaying the identical report. -/
theorem record_result_idempotent_witness :
    record_result
      ((record_result sampleState 2 Outcome.executed "done" 8).toOption.get
        (by decide)).1 2 Outcome.executed "done" 11 =
    Except.ok ((record_result sampleState 2 Outcome.executed "done" 8).toOption.get (by decide)) :=
  record_result_idempotent sampleState 2 Outcome.executed "done" 8 11
    ((record_result sampleState 2 Outcome.executed "done" 8).toOption.get (by decide)).1
    ((record_result sampleState 2 Outcome.executed "done" 8).toOption.get (by decide)).2
    rfl

/-- **C4 counterexample.** The claim says `record_result` on every
command not in `sent` state fails with `InvalidStateTransition`; but
resubmitting the identical outcome and payload to the already-executed
command id 3 of the sample state succeeds as an idempotent no-op (the
spec's §5 duplicate-delivery requirement), so the claim as stated is
false at this input. -/
theorem record_result_not_sent_counterexample :
    sampleExecutedLock ∈ sampleState.commands ∧
    sampleExecutedLock.id = 3 ∧
    sampleExecutedLock.status = CmdStatus.executed ∧
    record_result sampleState 3 Outcome.executed "ok" 9 ≠
      Except.error Err.invalidStateTransition := by
  refine ⟨by decide, by decide, by decide, ?_⟩
  rw [show record_result sampleState 3 Outcome.executed "ok" 9 =
    Except.ok (sampleState, sampleExecutedLock) from rfl]
  intro h
  exact Except.noConfusion h

/-- **C4 (amended).** `record_result` on a command not in `sent` state
fails with `InvalidStateTransition` — except for resubmission of the
identical outcome and payload to an already-terminal command, which the
spec's idempotency requirement (§5) makes a no-op success; a rejected
call leaves the state unchanged; and along any step from a well-formed
state every command moves only forward along
`pending → sent → executed|failed` and is never modified again once
terminal (never reopened). -/
theorem record_result_not_sent_spec (st : QState) (cid : Nat) (o : Outcome)
    (p : String) (now : Nat) (c : Command) (op : Op) (hwf : WF st)
    (hfind : st.commands.find? (fun x => x.id == cid) = some c) :
    (c.status = CmdStatus.pending →
      record_result st cid o p now =
        Except.error Err.invalidStateTransition) ∧
    (c.status = CmdStatus.executed →
      ¬(o = Outcome.executed ∧ c.resultPayload = some p) →
      record_result st cid o p now =
        Except.error Err.invalidStateTransition) ∧
    (c.status = CmdStatus.failed →
      ¬(o = Outcome.failed ∧ c.resultPayload = some p) →
      record_result st cid o p now =
        Except.error Err.invalidStateTransition) ∧
    (∀ e, record_result st cid o p now = Except.error e →
      (step st (Op.recordResult cid o p now)).1 = st) ∧
    (∀ x ∈ st.commands, ∀ x' ∈ (step st op).1.commands, x'.id = x.id →
      statusRank x.status ≤ statusRank x'.status ∧
      (statusRank x.status = 2 → x' = x)) := by
  refine ⟨?_, ?_, ?_, ?_, step_status_mono hwf op⟩
  · intro hs
    unfold record_result
    simp only [hfind, hs]
  · intro hs hne
    have hcondf : (o == Outcome.executed &&
        c.resultPayload == some p) = false := by
      by_cases h1 : o = Outcome.executed
      · by_cases h2 : c.resultPayload = some p
        · exact absurd ⟨h1, h2⟩ hne
        · simp [h2]
      · simp [h1]
    unfold record_result
    simp only [hfind, hs, hcondf]
    rfl
  · intro hs hne
    have hcondf : (o == Outcome.failed &&
        c.resultPayload == some p) = false := by
      by_cases h1 : o = Outcome.failed
      · by_cases h2 : c.resultPayload = some p
        · exact absurd ⟨h1, h2⟩ hne
        · simp [h2]
      · simp [h1]
    unfold record_result
    simp only [hfind, hs, hcondf]
    rfl
  · intro e he
    simp only [step, he]

/-- Witness for `record_result_not_sent_spec`: the pending lock command
id 0 of the sample state. -/
theorem record_result_not_sent_spec_witness :
    (sampleLock.status = CmdStatus.pending →
      record_result sampleState 0 Outcome.executed "x" 9 =
        Except.error Err.invalidStateTransition) ∧
    (sampleLock.status = CmdStatus.executed →
      ¬(Outcome.executed = Outcome.executed ∧
        sampleLock.resultPayload = some "x") →
      record_result sampleState 0 Outcome.executed "x" 9 =
        Except.error Err.invalidStateTransition) ∧
    (sampleLock.status = CmdStatus.failed →
      ¬(Outcome.executed = Outcome.failed ∧
        sampleLock.resultPayload = some "x") →
      record_result sampleState 0 Outcome.executed "x" 9 =
        Except.error Err.invalidStateTransition) ∧
    (∀ e, record_result sampleState 0 Outcome.executed "x" 9 =
        Except.error e →
      (step sampleState (Op.recordResult 0 Outcome.executed "x" 9)).1 =
        sampleState) ∧
    (∀ x ∈ sampleState.commands,
      ∀ x' ∈ (step sampleState (Op.checkin 1 0 0 7)).1.commands,
      x'.id = x.id →
      statusRank x.status ≤ statusRank x'.status ∧
      (statusRank x.status = 2 → x' = x)) :=
  record_result_not_sent_spec sampleState 0 Outcome.executed "x" 9
    sampleLock (Op.checkin 1 0 0 7) (by decide) (by decide)

/-- **C6.** A check-in from a wiped device is rejected with
`InvalidStateTransition` and changes nothing: the step leaves the whole
state (in particular the LocationSample history, the device registry
with its `status`/`last_seen`, and the command queue) exactly as it was,
and no command is dequeued. -/
theorem checkin_wiped_rejected (st : QState) (d : Nat) (lat lon : Int)
    (now : Nat) (dev : Device)
    (hfind : st.devices.find? (fun v => v.id == d) = some dev)
    (hw : dev.isWiped = true) :
    checkin st d lat lon now = Except.error Err.invalidStateTransition ∧
    (step st (Op.checkin d lat lon now)).1 = st ∧
    (step st (Op.checkin d lat lon now)).1.samples = st.samples ∧
    (step st (Op.checkin d lat lon now)).1.devices = st.devices ∧
    (step st (Op.checkin d lat lon now)).2 = none := by
  have h1 : checkin st d lat lon now =
      Except.error Err.invalidStateTransition := by
    unfold checkin
    simp only [hfind, hw]
    rfl
  refine ⟨h1, ?_, ?_, ?_, ?_⟩ <;> simp only [step, h1]

/-- Witness for `checkin_wiped_rejected`: the wiped device id 2 of the
sample state. -/
theorem checkin_wiped_rejected_witness :
    checkin sampleState 2 0 0 9 =
      Except.error Err.invalidStateTransition ∧
    (step sampleState (Op.checkin 2 0 0 9)).1 = sampleState ∧
    (step sampleState (Op.checkin 2 0 0 9)).1.samples =
      sampleState.samples ∧
    (step sampleState (Op.checkin 2 0 0 9)).1.devices =
      sampleState.devices ∧
    (step sampleState (Op.checkin 2 0 0 9)).2 = none :=
  checkin_wiped_rejected sampleState 2 0 0 9 sampleWipedDevice
    (by decide) (by decide)

/-- **C7.** With distinct device ids: a wiped device stays wiped across
any single step and across any whole trace of operations (check-ins,
commands, unlocks, result reports, alert actions), and a device can
become wiped in a step only if it already was, or the step is a
`record_result` reporting successful execution of a sent wipe command of
that device. -/
theorem wiped_terminal_spec (st : QState) (op : Op) (ops : List Op)
    (hdw : (st.devices.map Device.id).Nodup) :
    (∀ dev ∈ st.devices, dev.isWiped = true →
      ∀ dev' ∈ (step st op).1.devices, dev'.id = dev.id →
        dev'.isWiped = true) ∧
    (∀ dev ∈ st.devices, dev.isWiped = true →
      ∀ dev' ∈ (runOps st ops).devices, dev'.id = dev.id →
        dev'.isWiped = true) ∧
    (∀ dev' ∈ (step st op).1.devices, dev'.isWiped = true →
      ∃ dev ∈ st.devices, dev.id = dev'.id ∧
        (dev.isWiped = true ∨
          ∃ cid p now, op = Op.recordResult cid Outcome.executed p now ∧
            ∃ c ∈ st.commands, c.id = cid ∧ c.ctype = CmdType.wipe ∧
              c.status = CmdStatus.sent ∧ c.deviceId = dev.id)) :=
  ⟨step_wiped_mono hdw op, runOps_wiped_mono ops st hdw,
    step_wiped_source st op⟩

/-- Witness for `wiped_terminal_spec`: the sample state, stepped by the
successful wipe execution report for the sent wipe command id 2. -/
theorem wiped_terminal_spec_witness :
    (∀ dev ∈ sampleState.devices, dev.isWiped = true →
      ∀ dev' ∈ (step sampleState
          (Op.recordResult 2 Outcome.executed "done" 8)).1.devices,
        dev'.id = dev.id → dev'.isWiped = true) ∧
    (∀ dev ∈ sampleState.devices, dev.isWiped = true →
      ∀ dev' ∈ (runOps sampleState
          [Op.recordResult 2 Outcome.executed "done" 8,
            Op.checkin 1 0 0 9]).devices,
        dev'.id = dev.id → dev'.isWiped = true) ∧
    (∀ dev' ∈ (step sampleState
        (Op.recordResult 2 Outcome.executed "done" 8)).1.devices,
      dev'.isWiped = true →
      ∃ dev ∈ sampleState.devices, dev.id = dev'.id ∧
        (dev.isWiped = true ∨
          ∃ cid p now,
            Op.recordResult 2 Outcome.executed "done" 8 =
              Op.recordResult cid Outcome.executed p now ∧
            ∃ c ∈ sampleState.commands, c.id = cid ∧
              c.ctype = CmdType.wipe ∧ c.status = CmdStatus.sent ∧
              c.deviceId = dev.id)) :=
  wiped_terminal_spec sampleState
    (Op.recordResult 2 Outcome.executed "done" 8)
    [Op.recordResult 2 Outcome.executed "done" 8, Op.checkin 1 0 0 9]
    (by decide)

/-- **C8.** Acknowledge and resolve move alerts only forward along
`unacknowledged → acknowledged → resolved`: acknowledging a resolved
alert fails with `InvalidStateTransition` and leaves the state
unchanged; a successful acknowledge starts from an unacknowledged,
unresolved alert and every alert's rank is not decreased; a successful
resolve starts from an unresolved alert and every alert's rank is not
decreased; resolving a resolved alert also fails. -/
theorem alert_lifecycle_spec (st : QState) (aid now : Nat) (a : Alert)
    (hfind : st.alerts.find? (fun x => x.id == aid) = some a) :
    (a.resolved = true →
      acknowledgeAlert st aid now =
        Except.error Err.invalidStateTransition ∧
      (step st (Op.ackAlert aid now)).1 = st) ∧
    (∀ st', acknowledgeAlert st aid now = Except.ok st' →
      a.acked = false ∧ a.resolved = false ∧
      { a with acked := true, ackedAt := some now } ∈ st'.alerts ∧
      ∀ x' ∈ st'.alerts, ∃ x ∈ st.alerts, x'.id = x.id ∧
        alertRank x ≤ alertRank x') ∧
    (∀ st', resolveAlert st aid now = Except.ok st' →
      a.resolved = false ∧
      { a with resolved := true, resolvedAt := some now } ∈ st'.alerts ∧
      ∀ x' ∈ st'.alerts, ∃ x ∈ st.alerts, x'.id = x.id ∧
        alertRank x ≤ alertRank x') ∧
    (a.resolved = true →
      resolveAlert st aid now =
        Except.error Err.invalidStateTransition) := by
  have haid' := List.find?_some hfind
  have haid : (a.id == aid) = true := haid'
  refine ⟨?_, ?_, ?_, ?_⟩
  · intro hres
    have herr : acknowledgeAlert st aid now =
        Except.error Err.invalidStateTransition := by
      unfold acknowledgeAlert
      simp only [hfind, hres]
      rfl
    exact ⟨herr, by simp only [step, herr]⟩
  · intro st' h
    unfold acknowledgeAlert at h
    simp only [hfind] at h
    split at h
    · exact Except.noConfusion h
    · rename_i hguard
      have hga : a.acked = false ∧ a.resolved = false := by
        rcases Bool.or_eq_true _ _ ▸ hguard with h'
        constructor
        · cases hx : a.acked
          · rfl
          · exact absurd (by simp [hx]) hguard
        · cases hx : a.resolved
          · rfl
          · exact absurd (by simp [hx]) hguard
      cases Except.ok.inj h
      refine ⟨hga.1, hga.2, ?_, ?_⟩
      · have hmem := List.mem_of_find?_eq_some hfind
        have : ({ a with acked := true, ackedAt := some now } : Alert) =
            if (a.id == aid) = true then
              { a with acked := true, ackedAt := some now }
            else a := by
          rw [if_pos haid]
        rw [this]
        exact List.mem_map_of_mem _ hmem
      · intro x' hx'
        rcases List.mem_map.mp hx' with ⟨x, hx, rfl⟩
        by_cases hxa : (x.id == aid) = true
        · exact ⟨x, hx, by simp [hxa], by
            simp only [if_pos hxa]
            exact alertRank_ack_le x now⟩
        · exact ⟨x, hx, by simp [hxa], by simp [hxa]⟩
  · intro st' h
    unfold resolveAlert at h
    simp only [hfind] at h
    split at h
    · exact Except.noConfusion h
    · rename_i hguard
      have hgr : a.resolved = false := by
        cases hx : a.resolved
        · rfl
        · exact absurd (by simp [hx]) hguard
      cases Except.ok.inj h
      refine ⟨hgr, ?_, ?_⟩
      · have hmem := List.mem_of_find?_eq_some hfind
        have : ({ a with resolved := true, resolvedAt := some now } :
            Alert) =
            if (a.id == aid) = true then
              { a with resolved := true, resolvedAt := some now }
            else a := by
          rw [if_pos haid]
        rw [this]
        exact List.mem_map_of_mem _ hmem
      · intro x' hx'
        rcases List.mem_map.mp hx' with ⟨x, hx, rfl⟩
        by_cases hxa : (x.id == aid) = true
        · exact ⟨x, hx, by simp [hxa], by
            simp only [if_pos hxa]
            exact alertRank_resolve_le x now⟩
        · exact ⟨x, hx, by simp [hxa], by simp [hxa]⟩
  · intro hres
    unfold resolveAlert
    simp only [hfind, hres]
    rfl

/-- Witness for `alert_lifecycle_spec`: the resolved alert id 0 of the
sample state. -/
theorem alert_lifecycle_spec_witness :
    (sampleResolvedAlert.resolved = true →
      acknowledgeAlert sampleState 0 9 =
        Except.error Err.invalidStateTransition ∧
      (step sampleState (Op.ackAlert 0 9)).1 = sampleState) ∧
    (∀ st', acknowledgeAlert sampleState 0 9 = Except.ok st' →
      sampleResolvedAlert.acked = false ∧
      sampleResolvedAlert.resolved = false ∧
      { sampleResolvedAlert with acked := true, ackedAt := some 9 } ∈ st'.alerts ∧
      ∀ x' ∈ st'.alerts, ∃ x ∈ sampleState.alerts, x'.id = x.id ∧
        alertRank x ≤ alertRank x') ∧
    (∀ st', resolveAlert sampleState 0 9 = Except.ok st' →
      sampleResolvedAlert.resolved = false ∧
      { sampleResolvedAlert with resolved := true, resolvedAt := some 9 } ∈ st'.alerts ∧
      ∀ x' ∈ st'.alerts, ∃ x ∈ sampleState.alerts, x'.id = x.id ∧
        alertRank x ≤ alertRank x') ∧
    (sampleResolvedAlert.resolved = true →
      resolveAlert sampleState 0 9 =
        Except.error Err.invalidStateTransition) :=
  alert_lifecycle_spec sampleState 0 9 sampleResolvedAlert (by decide)

/-- The haversine distance from any point to itself is zero, giving a
concrete point that sits exactly at the radius of a zero-radius fence. -/
theorem haversineDistanceM_self (lat lon : ℝ) :
    haversineDistanceM lat lon lat lon = 0 := by
  unfold haversineDistanceM
  simp [sub_self]

/-- **C5.** The circle evaluator classifies a point as inside exactly
when the haversine great-circle distance in meters from the point to the
center is at most the radius; a point at distance exactly the radius is
inside (the fixed, inclusive boundary convention); and the evaluator is
a pure function of its inputs, so repeated evaluation of the same inputs
gives the same result. -/
theorem evaluateCircleInside_spec (p : GeoPoint) (f : CircleFence) :
    (evaluateCircleInside p f ↔
      haversineDistanceM p.latitude p.longitude f.centerLatitude
        f.centerLongitude ≤ f.radiusMeters) ∧
    (haversineDistanceM p.latitude p.longitude f.centerLatitude
        f.centerLongitude = f.radiusMeters → evaluateCircleInside p f) ∧
    (evaluateCircleInside p f ↔ evaluateCircleInside p f) :=
  ⟨Iff.rfl, fun h => le_of_eq h, Iff.rfl⟩

/-- Witness for `evaluateCircleInside_spec`: the origin against a
zero-radius fence centered on it — a point at distance exactly the
radius, classified inside. -/
theorem evaluateCircleInside_spec_witness :
    ((evaluateCircleInside ⟨0, 0⟩ ⟨0, 0, 0⟩ ↔
      haversineDistanceM 0 0 0 0 ≤ 0) ∧
    (haversineDistanceM 0 0 0 0 = 0 →
      evaluateCircleInside ⟨0, 0⟩ ⟨0, 0, 0⟩) ∧
    (evaluateCircleInside ⟨0, 0⟩ ⟨0, 0, 0⟩ ↔
      evaluateCircleInside ⟨0, 0⟩ ⟨0, 0, 0⟩)) ∧
    evaluateCircleInside ⟨0, 0⟩ ⟨0, 0, 0⟩ :=
  ⟨evaluateCircleInside_spec ⟨0, 0⟩ ⟨0, 0, 0⟩,
    (evaluateCircleInside_spec ⟨0, 0⟩ ⟨0, 0, 0⟩).2.1
      (haversineDistanceM_self 0 0)⟩

end Trace
